import Mathlib

/-!
Shallow embedding of the template-filler resolution-and-evaluation engine
(`src/lib/evaluator.js`) and verification of its specified properties.

Modelling conventions for the JavaScript source:
* a JS number is modelled by `JNum` (NaN, +Infinity, -Infinity, or a finite
  integer; the engine only ever produces integer-valued finite numbers, and
  numeric string parsing is modelled on the decimal-integer fragment);
* a spreadsheet cell is a `Cell`: a string, a number, `null`, or `undefined`;
* a table is a list of rows (header row first), a row is a list of cells;
  out-of-range row indexing yields `undefined`, as in JS;
* an absent (`null`/`undefined`) table or array argument behaves exactly like
  an empty one in every code path modelled here (the source only tests
  `!x?.length` and `x || []`), so tables and arrays are plain lists;
* a JS object / `Map` keyed by numbers is an association list in insertion
  order; `jsGet` returns the value of the *last* binding for a key, which
  matches both object-property overwriting and `Map` constructor semantics;
* JS `String.prototype.trim` / `\s` / `toLowerCase` are modelled over the
  ASCII fragment used by the reference data.
-/

set_option maxRecDepth 4000

namespace TemplateFiller

/-- A JavaScript number: NaN, the two infinities, or a finite (integer) value. -/
inductive JNum where
  | nan
  | posInf
  | negInf
  | fin (n : Int)
deriving DecidableEq, Repr

/-- A spreadsheet cell value as the JS code may see it. -/
inductive Cell where
  | str (s : String)
  | num (n : JNum)
  | null
  | undef
deriving DecidableEq, Repr

/-- A table row. -/
abbrev Row := List Cell

/-- A table: header row followed by data rows. -/
abbrev Table := List Row

/-- JS truthiness of a number (`0` and `NaN` are falsy). -/
def jsTruthy : JNum → Bool
  | .nan => false
  | .fin n => n ≠ 0
  | _ => true

/-- JS truthiness test for a cell (`""`, `0`, `NaN`, `null`, `undefined` are falsy). -/
def cellFalsy : Cell → Bool
  | .str s => s = ""
  | .num n => !jsTruthy n
  | .null => true
  | .undef => true

/-- JS `String(x)` conversion for a number. -/
def jnumToStr : JNum → String
  | .nan => "NaN"
  | .posInf => "Infinity"
  | .negInf => "-Infinity"
  | .fin n => toString n

/-- JS `String(x)` conversion for a cell. -/
def cellToStr : Cell → String
  | .str s => s
  | .num n => jnumToStr n
  | .null => "null"
  | .undef => "undefined"

/-- JS `String(x ?? "")`: `null` and `undefined` become the empty string. -/
def cellNNStr : Cell → String
  | .null => ""
  | .undef => ""
  | c => cellToStr c

/-- Whitespace test (ASCII fragment of the JS `\s` class). -/
def isWS (c : Char) : Bool := c.isWhitespace

/-- Drop leading and trailing whitespace from a character list. -/
def trimChars (l : List Char) : List Char :=
  ((l.dropWhile isWS).reverse.dropWhile isWS).reverse

/-- JS `String.prototype.trim`. -/
def jsTrim (s : String) : String := ⟨trimChars s.data⟩

/-- Replace every maximal run of whitespace by a single space
(the effect of `replace(/\s+/g, " ")`).  The boolean records whether the
previous character was whitespace. -/
def collapseWSAux : Bool → List Char → List Char
  | _, [] => []
  | prevWS, c :: cs =>
    if isWS c then
      (if prevWS then collapseWSAux true cs else ' ' :: collapseWSAux true cs)
    else c :: collapseWSAux false cs

/-- Collapse whitespace runs in a character list. -/
def collapseWS (l : List Char) : List Char := collapseWSAux false l

/-- Lowercase a character list (ASCII fragment of JS `toLowerCase`). -/
def lowerChars (l : List Char) : List Char := l.map Char.toLower

/-- The source's `canon`: `String(s || "").trim().replace(/\s+/g, " ")
.replace(/_/g, " ").toLowerCase()` — note that underscores are replaced
*after* whitespace collapsing. -/
def canon (c : Cell) : String :=
  let s := if cellFalsy c then "" else cellToStr c
  ⟨lowerChars (((collapseWS (trimChars s.data)).map (fun ch => if ch = '_' then ' ' else ch)))⟩

/-- Split a character list at every character satisfying `p` (pieces may be empty). -/
def splitChars (p : Char → Bool) : List Char → List (List Char)
  | [] => [[]]
  | c :: cs =>
    if p c then [] :: splitChars p cs
    else
      match splitChars p cs with
      | [] => [[c]]
      | t :: ts => (c :: t) :: ts

/-- Delimiter class of the source's `SPLIT_RE` (`/[,|;]+/`). -/
def isDelim (c : Char) : Bool := c = ',' || c = '|' || c = ';'

/-- The source's `parseList`: `null`/`undefined` give `[]`; otherwise split the
string form on comma/semicolon/pipe, trim each piece and drop empties.
(Splitting on single delimiters instead of delimiter runs only produces extra
empty pieces, which the final filter removes, so the result agrees with the
regex-run split of the source.) -/
def parseList (c : Cell) : List String :=
  match c with
  | .null => []
  | .undef => []
  | c =>
    ((splitChars isDelim (cellToStr c).data).map (fun piece => (⟨trimChars piece⟩ : String))).filter
      (fun s => s ≠ "")

/-- Parse a run of decimal digits (empty input fails). -/
def digitsToNat : List Char → Option Nat
  | [] => none
  | l =>
    if l.all Char.isDigit then
      some (l.foldl (fun acc c => acc * 10 + (c.toNat - 48)) 0)
    else none

/-- JS `Number(string)` on the fragment the engine meets: trimmed empty string
is `0`; `Infinity` forms; an optional sign followed by decimal digits; anything
else is NaN. -/
def strToNum (s : String) : JNum :=
  match trimChars s.data with
  | [] => .fin 0
  | l =>
    if l = "Infinity".data ∨ l = "+Infinity".data then .posInf
    else if l = "-Infinity".data then .negInf
    else
      match l with
      | '-' :: rest => match digitsToNat rest with
        | some n => .fin (-(n : Int))
        | none => .nan
      | '+' :: rest => match digitsToNat rest with
        | some n => .fin (n : Int)
        | none => .nan
      | l => match digitsToNat l with
        | some n => .fin (n : Int)
        | none => .nan

/-- JS `Number(cell)`: numbers unchanged, `null` is `0`, `undefined` is NaN,
strings are parsed. -/
def cellToNum : Cell → JNum
  | .num n => n
  | .null => .fin 0
  | .undef => .nan
  | .str s => strToNum s

/-- The source's `toNum`: `Number(v)` if finite, else `null` (here `none`). -/
def toNum (c : Cell) : Option Int :=
  match cellToNum c with
  | .fin n => some n
  | _ => none

/-- Row access `r[i]` with the JS convention that a missing index (`-1`,
modelled as `none`) or an out-of-range index yields `undefined`. -/
def rowGet (r : Row) (i : Option Nat) : Cell :=
  match i with
  | none => Cell.undef
  | some k => r.getD k Cell.undef

/-- First-occurrence deduplication with an accumulator of already-seen values;
this is exactly the observable behaviour of pushing through a JS `Set`. -/
def dedupSeen [DecidableEq α] (seen : List α) : List α → List α
  | [] => []
  | x :: xs =>
    if seen.contains x then dedupSeen seen xs
    else x :: dedupSeen (x :: seen) xs

/-- First-occurrence deduplication (`Array.from(new Set(...))`). -/
def dedupFirst [DecidableEq α] (l : List α) : List α := dedupSeen [] l

/-- The source's `uniqNums` on a list of string tokens:
map `Number`, deduplicate (Set), keep only finite values. -/
def uniqNums (l : List String) : List Int :=
  ((dedupFirst (l.map strToNum)).filterMap (fun n =>
    match n with
    | .fin k => some k
    | _ => none))

/-- The source's `uniqNums` applied to an already-numeric (finite) array:
`map Number` is the identity and the finiteness filter keeps everything, so
only the Set deduplication remains. -/
def uniqNumsInt (l : List Int) : List Int := dedupFirst l

/-- Lookup in an association list with *last-binding-wins* semantics: the JS
behaviour of both object property assignment and the `Map` constructor. -/
def jsGet [DecidableEq κ] : List (κ × β) → κ → Option β
  | [], _ => none
  | p :: l, k =>
    match jsGet l k with
    | some w => some w
    | none => if p.1 = k then some p.2 else none

/-- All ways of joining a list of lowercase words with either nothing or a
single space between consecutive words: exactly the strings matched by the
whole-string regex `word1\s*word2\s*...` after whitespace collapsing. -/
def wordJoins : List String → List String
  | [] => [""]
  | [w] => [w]
  | w :: ws => (wordJoins ws).flatMap (fun t => [w ++ t, w ++ " " ++ t])

/-- Header-label normalization used by `findCol`:
`String(h ?? "").replace(/_/g, " ").replace(/\s+/g, " ").trim()`, compared
case-insensitively (modelled by lowercasing both sides). -/
def headerNorm (c : Cell) : String :=
  ⟨lowerChars (trimChars (collapseWS (((cellNNStr c).data.map
    (fun ch => if ch = '_' then ' ' else ch)))))⟩

/-- The source's `findCol`: index of the first header whose normalized label
matches the pattern (given here as its list of words, e.g. `["tag", "id"]` for
`"tag\s*id"`); `none` models the `-1` not-found sentinel. -/
def findCol (headers : List Cell) (words : List String) : Option Nat :=
  headers.findIdx? (fun h => (wordJoins words).contains (headerNorm h))

/-- The source's `filterTableByIds`: empty (or absent) table gives `[]`;
empty (or absent) id list keeps only the header; otherwise keep the header and
the data rows whose first cell, coerced to a number, is in the id set
(`Set.has` uses SameValueZero, i.e. `JNum` equality with NaN equal to NaN). -/
def filterTableByIds (aoa : Table) (ids : List JNum) : Table :=
  match aoa with
  | [] => []
  | h :: rows =>
    if ids.isEmpty then [h]
    else h :: rows.filter (fun r => ids.contains (cellToNum (rowGet r (some 0))))

/-- A shaped tag object as produced by `shapeTagsInfo` (and by the scheduler's
synthetic fallback).  `Tag_ID` is the source's `toNum` result (`null` modelled
as `none`); `Priority` is always set by the producers, so the `?? Infinity`
at the sort site is the identity. -/
structure TagInfo where
  Tag_ID : Option Int
  Tag_Category : Cell
  Priority : JNum
  Question : Cell
  Entry_Type : Cell
  Entry_Category : Cell
  Helper_Text : Cell
deriving DecidableEq, Repr

/-- Shape one data row of the tag table (the body of `shapeTagsInfo`'s map). -/
def shapeTagRow (head : Row) (r : Row) : TagInfo :=
  let iId := some ((findCol head ["tag", "id"]).getD 0)
  let iCat := findCol head ["tag", "category"]
  let iPri := findCol head ["priority"]
  let iQue := findCol head ["question"]
  let iType := findCol head ["entry", "type"]
  let iEC := findCol head ["entry", "category"]
  let iHelp := findCol head ["helper", "text"]
  { Tag_ID := toNum (rowGet r iId)
    Tag_Category := match iCat with
      | some _ => rowGet r iCat
      | none => Cell.str ""
    Priority := match iPri with
      | some k =>
        if cellFalsy (rowGet r (some k)) then JNum.posInf else cellToNum (rowGet r (some k))
      | none => JNum.posInf
    Question := match iQue with
      | some _ => rowGet r iQue
      | none => Cell.str ""
    Entry_Type := match iType with
      | some _ => rowGet r iType
      | none => Cell.str ("Text")
    Entry_Category := match iEC with
      | some _ => rowGet r iEC
      | none => Cell.str ""
    Helper_Text := match iHelp with
      | some _ => rowGet r iHelp
      | none => Cell.str "" }

/-- The source's `shapeTagsInfo`. -/
def shapeTagsInfo (tagsAoA : Table) : List TagInfo :=
  match tagsAoA with
  | [] => []
  | head :: rows => rows.map (shapeTagRow head)

/-- `Number(t.Tag_ID)` for a shaped tag: `Number(null)` is `0`. -/
def tagIdNum (t : TagInfo) : Int := t.Tag_ID.getD 0

/-- The source's `dedupeByTagId` with its seen-set accumulator: keep the first
occurrence of each `Number(Tag_ID)`.  (In this model `Number(Tag_ID)` is always
finite, so the source's `isFinite` skip never fires.) -/
def dedupeTagsSeen (seen : List Int) : List TagInfo → List TagInfo
  | [] => []
  | t :: ts =>
    if seen.contains (tagIdNum t) then dedupeTagsSeen seen ts
    else t :: dedupeTagsSeen (tagIdNum t :: seen) ts

/-- The source's `dedupeByTagId`. -/
def dedupeByTagId (l : List TagInfo) : List TagInfo := dedupeTagsSeen [] l

/-- The three reference tables handed to the resolver. -/
structure Tables where
  templatesTable : Table
  variablesTable : Table
  clausesTable : Table

/-- Result record of `getTagsAndClausesByTemplateName`. -/
structure ResolveResult where
  tagsArray : List Int
  clausesArray : List Int
  debug : List String
deriving DecidableEq, Repr

/-- The source's `getTagsAndClausesByTemplateName`. -/
def getTagsAndClausesByTemplateName (tb : Tables) (templateName : String) :
    ResolveResult :=
  match tb.templatesTable, tb.variablesTable, tb.clausesTable with
  | tHead :: tRows, vHead :: vRows, cHead :: cRows =>
    let iTName := findCol tHead ["name"]
    let iTVar := findCol tHead ["variable", "array"]
    match tRows.find? (fun r => canon (rowGet r iTName) = canon (Cell.str templateName)) with
    | none => ⟨[], [], ["Template not found: " ++ templateName]⟩
    | some tRow =>
      let varList := parseList (rowGet tRow iTVar)
      if varList.isEmpty then ⟨[], [], ["Template Variable_Array is empty."]⟩
      else
        let iObj := findCol vHead ["object", "name"]
        let iVType := findCol vHead ["variable", "type"]
        let iAssoc := findCol vHead ["associated", "clause", "array"]
        let matchesFor := fun (name : String) =>
          vRows.filter (fun r =>
            canon (rowGet r iObj) = canon (Cell.str name) ∧ canon (rowGet r iVType) = "clause")
        let clauseIds := varList.flatMap (fun name =>
          (matchesFor name).flatMap (fun r => uniqNums (parseList (rowGet r iAssoc))))
        let missingVars := varList.filter (fun name => (matchesFor name).isEmpty)
        let debug1 :=
          if missingVars.isEmpty then ([] : List String)
          else ["Variables not found (or not type \"Clause\"): " ++
                  String.intercalate ", " missingVars]
        let clausesArray := List.insertionSort (· ≤ ·) (uniqNumsInt clauseIds)
        let debug2 := debug1 ++
          ["Resolved " ++ toString clausesArray.length ++ " clause IDs from " ++
            toString varList.length ++ " variable names."]
        let iPc := some ((findCol cHead ["pc", "id"]).getD 0)
        let iTags := findCol cHead ["tags", "array"]
        let clauseMap := cRows.map (fun r => (cellToNum (rowGet r iPc), r))
        let tags := clausesArray.flatMap (fun pc =>
          match jsGet clauseMap (JNum.fin pc) with
          | none => []
          | some row => uniqNums (parseList (rowGet row iTags)))
        let tagsArray := List.insertionSort (· ≤ ·) (uniqNumsInt tags)
        let debug3 := debug2 ++
          ["Collected " ++ toString tagsArray.length ++ " unique tag IDs from clauses."]
        ⟨tagsArray, clausesArray, debug3⟩
  | _, _, _ => ⟨[], [], ["One or more tables are empty."]⟩

/-- The source's `evaluateTagsBuildMode`.  The answer mapping is given as its
ordered entry list (`Object.entries`); keys are the raw strings, coerced with
`Number`.  The result association list is read back with `jsGet`. -/
def evaluateTagsBuildMode (answeredTags : List (String × Cell)) (tbl : Table) :
    List (JNum × Int) :=
  match tbl with
  | [] => []
  | head :: rows =>
    let iId := some ((findCol head ["tag", "id"]).getD 0)
    let iECat := findCol head ["entry", "category"]
    let iType := findCol head ["entry", "type"]
    let rowById := rows.map (fun r => (cellToNum (rowGet r iId), r))
    answeredTags.flatMap (fun kv =>
      let id := strToNum kv.1
      match jsGet rowById id with
      | none => []
      | some row =>
        let entryCat := canon (rowGet row iECat)
        let entryType := canon (rowGet row iType)
        let value : Int :=
          if entryCat = "bool" then
            (if canon kv.2 = "yes" then 1 else if canon kv.2 = "no" then -1 else 0)
          else if entryType = "no display" then
            (if jsTrim (cellNNStr kv.2) ≠ "" then 1 else 0)
          else
            (if jsTrim (cellNNStr kv.2) ≠ "" then 1 else 0)
        [(id, value)])

/-- The source's `val` helper inside `evaluateClauses`: the assigned value when
it is exactly `1` or `-1`, else `0`. -/
def tagVal (assigned : List (Int × Int)) (t : Int) : Int :=
  match jsGet assigned t with
  | none => 0
  | some v => if v = 1 then 1 else if v = -1 then -1 else 0

/-- The per-row verdict computation of `evaluateClauses` (its loop body),
including the source's redundant empty-list conditionals. -/
def clauseVerdict (value : Int → Int) (inc exc : List Int) : Int :=
  if inc.any (fun t => value t = -1) then -1
  else if exc.any (fun t => value t = 1) then -1
  else
    let incAllOne := if inc.length = 0 then true else inc.all (fun t => value t = 1)
    let excAllNeg := if exc.length = 0 then true else exc.all (fun t => value t = -1)
    if incAllOne ∧ excAllNeg then 1 else 0

/-- The source's `evaluateClauses`; the result object is the association list
of `(PC_ID, verdict)` in row order, read back with `jsGet`. -/
def evaluateClauses (assignedTags : List (Int × Int)) (tbl : Table) :
    List (JNum × Int) :=
  match tbl with
  | [] => []
  | head :: rows =>
    let iPc := some ((findCol head ["pc", "id"]).getD 0)
    let iInc := findCol head ["include", "if", "list"]
    let iExc := findCol head ["exclude", "if", "list"]
    rows.map (fun r =>
      (cellToNum (rowGet r iPc),
        clauseVerdict (tagVal assignedTags)
          (uniqNums (parseList (rowGet r iInc)))
          (uniqNums (parseList (rowGet r iExc)))))

/-- JS subtraction on numbers, restricted to the cases the sort comparator can
meet (`∞-∞` and `-∞+∞` are NaN; an infinity beats a finite value). -/
def jsub : JNum → JNum → JNum
  | .nan, _ => .nan
  | _, .nan => .nan
  | .posInf, .posInf => .nan
  | .negInf, .negInf => .nan
  | .posInf, _ => .posInf
  | .negInf, _ => .negInf
  | .fin _, .posInf => .negInf
  | .fin _, .negInf => .posInf
  | .fin a, .fin b => .fin (a - b)

/-- The scheduler's sort comparator
`(a.Priority ?? Infinity) - (b.Priority ?? Infinity) || a.Tag_ID - b.Tag_ID`:
if the priority difference is truthy it decides, otherwise (difference `0` or
NaN) the `Tag_ID` difference does. -/
def qCmp (a b : TagInfo) : JNum :=
  let d := jsub a.Priority b.Priority
  if jsTruthy d then d else JNum.fin (tagIdNum a - tagIdNum b)

/-- `a` sorts no later than `b`: comparator value at most `0` (a NaN comparator
value is treated as `0` by the JS sort specification). -/
def qLE (a b : TagInfo) : Bool :=
  match qCmp a b with
  | .fin k => k ≤ 0
  | .negInf => true
  | .posInf => false
  | .nan => true

/-- Stable insertion of an element into an already sorted question list:
the inserted element comes from earlier in the original list, so it goes in
front of the first element it does not strictly follow. -/
def insertQ (x : TagInfo) : List TagInfo → List TagInfo
  | [] => [x]
  | y :: l => if qLE x y then x :: y :: l else y :: insertQ x l

/-- Stable sort of the question list with the JS comparator.  For the
comparators arising from NaN-free priorities this is a total preorder, so any
stable sort — in particular the engine's `Array.prototype.sort` — produces
exactly this list. -/
def sortQ : List TagInfo → List TagInfo
  | [] => []
  | x :: l => insertQ x (sortQ l)

/-- The synthetic minimal question the scheduler builds for a pending tag
missing from the catalog. -/
def fallbackQuestion (id : Int) : TagInfo :=
  { Tag_ID := some id
    Question := Cell.str ("Answer for Tag " ++ toString id)
    Entry_Type := Cell.str ("Text")
    Entry_Category := Cell.str ""
    Helper_Text := Cell.str ""
    Priority := JNum.posInf
    Tag_Category := Cell.str "" }

/-- Result record of `returnNextTagQuestions`.  The completion ratio is exact
here; the JS float division is exact on the magnitudes involved only up to
rounding, which no claim distinguishes. -/
structure NextResult where
  status : String
  nextQuestions : List TagInfo
  ratioCompletedTags : ℚ
deriving DecidableEq, Repr

/-- The source's `returnNextTagQuestions`. -/
def returnNextTagQuestions (clauseEval : List (JNum × Int)) (tbl : Table)
    (clausesArray : List Int) (assignedTags : List (Int × Int))
    (tagsArray : List Int) (tagsInfo : List TagInfo) : NextResult :=
  let totalTags := tagsArray.length
  let assignedCount := (assignedTags.map Prod.snd).countP (fun v => v = 1 ∨ v = -1)
  let ratioCompleted : ℚ :=
    if totalTags > 0 then (assignedCount : ℚ) / (totalTags : ℚ) else 0
  let unresolvedClauses :=
    clausesArray.filter (fun pc => jsGet clauseEval (JNum.fin pc) = some 0)
  if unresolvedClauses.isEmpty then ⟨"done", [], ratioCompleted⟩
  else
    match tbl with
    | [] => ⟨"ask", [], ratioCompleted⟩
    | head :: rows =>
      let iPc := some ((findCol head ["pc", "id"]).getD 0)
      let iTags := findCol head ["tags", "array"]
      let rowsByPc := rows.map (fun r => (cellToNum (rowGet r iPc), r))
      let unresolvedTagIds := unresolvedClauses.flatMap (fun pc =>
        match jsGet rowsByPc (JNum.fin pc) with
        | none => []
        | some row => uniqNums (parseList (rowGet row iTags)))
      let pendingTagIds := (uniqNumsInt unresolvedTagIds).filter (fun tid =>
        match jsGet assignedTags tid with
        | none => true
        | some v => v = 0)
      if pendingTagIds.isEmpty then ⟨"done", [], ratioCompleted⟩
      else
        let infoById := tagsInfo.map (fun t => (tagIdNum t, t))
        let nextInfo := pendingTagIds.map (fun id =>
          match jsGet infoById id with
          | some t => t
          | none => fallbackQuestion id)
        let nextQuestions := sortQ (dedupeByTagId nextInfo)
        ⟨"ask", nextQuestions, ratioCompleted⟩

/-! ### Association-list lookup lemmas -/

theorem jsGet_append {κ β : Type} [DecidableEq κ] (l₁ l₂ : List (κ × β)) (k : κ) :
    jsGet (l₁ ++ l₂) k = match jsGet l₂ k with
      | some w => some w
      | none => jsGet l₁ k := by
  induction l₁ with
  | nil => simp only [List.nil_append, jsGet]; cases jsGet l₂ k <;> rfl
  | cons p l₁ ih =>
    simp only [List.cons_append, jsGet, List.append_eq]
    rw [ih]
    cases jsGet l₂ k <;> cases jsGet l₁ k <;> rfl

theorem jsGet_eq_none_iff {κ β : Type} [DecidableEq κ] (l : List (κ × β)) (k : κ) :
    jsGet l k = none ↔ ∀ p ∈ l, p.1 ≠ k := by
  induction l with
  | nil => simp [jsGet]
  | cons p l ih =>
    simp only [jsGet, List.forall_mem_cons]
    cases h : jsGet l k with
    | some w =>
      have hnot : ¬ ∀ p ∈ l, p.1 ≠ k := by
        rw [← ih, h]; simp
      simp only [reduceCtorEq, false_iff, not_and]
      intro _
      exact hnot
    | none =>
      have hl := ih.mp h
      constructor
      · intro hif
        refine ⟨?_, hl⟩
        intro hk
        rw [if_pos hk] at hif
        simp at hif
      · rintro ⟨hp, -⟩
        rw [if_neg hp]

theorem jsGet_isSome_iff {κ β : Type} [DecidableEq κ] (l : List (κ × β)) (k : κ) :
    (jsGet l k).isSome ↔ ∃ p ∈ l, p.1 = k := by
  rw [← Option.ne_none_iff_isSome]
  constructor
  · intro h
    by_contra hc
    push_neg at hc
    exact h ((jsGet_eq_none_iff l k).mpr hc)
  · rintro ⟨p, hp, hk⟩ h
    exact absurd hk ((jsGet_eq_none_iff l k).mp h p hp)

theorem jsGet_mem {κ β : Type} [DecidableEq κ] {l : List (κ × β)} {k : κ} {v : β}
    (h : jsGet l k = some v) : (k, v) ∈ l := by
  induction l with
  | nil => simp [jsGet] at h
  | cons p l ih =>
    simp only [jsGet] at h
    cases hl : jsGet l k with
    | some w =>
      rw [hl] at h
      have hw : w = v := by simpa using h
      subst hw
      exact List.mem_cons_of_mem _ (ih hl)
    | none =>
      rw [hl] at h
      by_cases hk : p.1 = k
      · rw [if_pos hk] at h
        have hv : p.2 = v := by simpa using h
        subst hk
        rw [← hv]
        simp
      · rw [if_neg hk] at h
        simp at h

theorem jsGet_map_val {α κ β : Type} [DecidableEq κ] (key : α → κ) (f : α → β)
    (l : List α) (k : κ) :
    jsGet (l.map fun r => (key r, f r)) k =
      (jsGet (l.map fun r => (key r, r)) k).map f := by
  induction l with
  | nil => simp [jsGet]
  | cons r l ih =>
    simp only [List.map_cons, jsGet]
    rw [ih]
    cases h : jsGet (l.map fun x => (key x, x)) k with
    | some w => rfl
    | none =>
      simp only [Option.map_none']
      split_ifs <;> rfl

theorem jsGet_map_self_mem {α κ : Type} [DecidableEq κ] (key : α → κ)
    {l : List α} {k : κ} {r : α} (h : jsGet (l.map fun x => (key x, x)) k = some r) :
    r ∈ l ∧ key r = k := by
  have hm := jsGet_mem h
  simp only [List.mem_map, Prod.mk.injEq] at hm
  obtain ⟨x, hx, hk, hr⟩ := hm
  subst hr
  exact ⟨hx, hk⟩

theorem jsGet_map_self_of_nodup {α κ : Type} [DecidableEq κ] (key : α → κ)
    {l : List α} (hn : (l.map key).Nodup) {k : κ} {r : α}
    (hr : r ∈ l) (hk : key r = k) :
    jsGet (l.map fun x => (key x, x)) k = some r := by
  induction l with
  | nil => simp at hr
  | cons y l ih =>
    simp only [List.map_cons, List.nodup_cons] at hn
    rcases List.mem_cons.mp hr with rfl | hr'
    · have hnone : jsGet (l.map fun x => (key x, x)) k = none := by
        rw [jsGet_eq_none_iff]
        intro p hp
        simp only [List.mem_map] at hp
        obtain ⟨x, hx, hpr⟩ := hp
        rw [← hpr]
        simp only
        intro hxk
        apply hn.1
        rw [← hk] at hxk
        rw [← hxk]
        exact List.mem_map.mpr ⟨x, hx, rfl⟩
      simp [jsGet, hnone, hk]
    · have hrec := ih hn.2 hr'
      simp [jsGet, hrec]

/-- The binding contributed by a row survives `jsGet` iff no later row shadows
its key: lookup for a decomposition `pre ++ r :: post` where no row of `post`
has `r`'s key. -/
theorem jsGet_map_last {α κ β : Type} [DecidableEq κ] (key : α → κ) (f : α → β)
    (pre post : List α) (r : α)
    (hpost : ∀ r' ∈ post, key r' ≠ key r) :
    jsGet ((pre ++ r :: post).map fun x => (key x, f x)) (key r) = some (f r) := by
  rw [List.map_append, jsGet_append]
  have hnone : jsGet (post.map fun x => (key x, f x)) (key r) = none := by
    rw [jsGet_eq_none_iff]
    intro p hp
    simp only [List.mem_map] at hp
    obtain ⟨x, hx, rfl⟩ := hp
    exact hpost x hx
  simp [List.map_cons, jsGet, hnone]

/-! ### Deduplication lemmas -/

theorem mem_dedupSeen {α : Type} [DecidableEq α] (seen l : List α) (x : α) :
    x ∈ dedupSeen seen l ↔ x ∈ l ∧ x ∉ seen := by
  induction l generalizing seen with
  | nil => simp [dedupSeen]
  | cons y l ih =>
    simp only [dedupSeen]
    split_ifs with hy
    · have hys : y ∈ seen := by simpa using hy
      rw [ih]
      simp only [List.mem_cons]
      constructor
      · rintro ⟨hl, hs⟩; exact ⟨Or.inr hl, hs⟩
      · rintro ⟨rfl | hl, hs⟩
        · exact absurd hys hs
        · exact ⟨hl, hs⟩
    · have hys : y ∉ seen := by simpa using hy
      simp only [List.mem_cons, ih, List.mem_cons]
      constructor
      · rintro (rfl | ⟨hl, hs⟩)
        · exact ⟨Or.inl rfl, hys⟩
        · exact ⟨Or.inr hl, fun hx => hs (Or.inr hx)⟩
      · rintro ⟨rfl | hl, hs⟩
        · exact Or.inl rfl
        · by_cases hxy : x = y
          · exact Or.inl hxy
          · exact Or.inr ⟨hl, fun hx => hx.elim hxy hs⟩

theorem nodup_dedupSeen {α : Type} [DecidableEq α] (seen l : List α) :
    (dedupSeen seen l).Nodup := by
  induction l generalizing seen with
  | nil => simp [dedupSeen]
  | cons y l ih =>
    simp only [dedupSeen]
    split_ifs with hy
    · exact ih seen
    · refine List.nodup_cons.mpr ⟨?_, ih _⟩
      rw [mem_dedupSeen]
      rintro ⟨-, hs⟩
      exact hs (List.mem_cons_self _ _)

theorem mem_dedupFirst {α : Type} [DecidableEq α] (l : List α) (x : α) :
    x ∈ dedupFirst l ↔ x ∈ l := by
  rw [dedupFirst, mem_dedupSeen]; simp

theorem nodup_dedupFirst {α : Type} [DecidableEq α] (l : List α) :
    (dedupFirst l).Nodup := nodup_dedupSeen [] l

theorem mem_uniqNumsInt (l : List Int) (x : Int) : x ∈ uniqNumsInt l ↔ x ∈ l :=
  mem_dedupFirst l x

/-- Two integer lists with the same members have the same ascending sorted
deduplication; this is how both resolver outputs are characterized. -/
theorem sortDedup_congr {l l' : List Int} (h : ∀ x, x ∈ l ↔ x ∈ l') :
    List.insertionSort (· ≤ ·) (dedupFirst l) =
      List.insertionSort (· ≤ ·) (dedupFirst l') := by
  apply List.eq_of_perm_of_sorted (r := (· ≤ ·))
  · have hn : (List.insertionSort (· ≤ ·) (dedupFirst l)).Nodup :=
      ((List.perm_insertionSort _ _).nodup_iff).mpr (nodup_dedupFirst l)
    have hn' : (List.insertionSort (· ≤ ·) (dedupFirst l')).Nodup :=
      ((List.perm_insertionSort _ _).nodup_iff).mpr (nodup_dedupFirst l')
    rw [List.perm_ext_iff_of_nodup hn hn']
    intro a
    rw [List.mem_insertionSort, List.mem_insertionSort, mem_dedupFirst, mem_dedupFirst]
    exact h a
  · exact List.sorted_insertionSort _ _
  · exact List.sorted_insertionSort _ _

/-! ### Question ordering -/

/-- Strict ascending order on (NaN-free) priorities: `-Infinity`, then finite
values, then `Infinity` (a missing priority was materialized as `Infinity`). -/
def prioLt : JNum → JNum → Bool
  | .negInf, .fin _ => true
  | .negInf, .posInf => true
  | .fin a, .fin b => a < b
  | .fin _, .posInf => true
  | _, _ => false

/-- The specified question-batch order: priority ascending with `Infinity`
(missing) last, ties broken by `Tag_ID` ascending. -/
def qOrdered (a b : TagInfo) : Prop :=
  prioLt a.Priority b.Priority = true ∨
    (a.Priority = b.Priority ∧ tagIdNum a ≤ tagIdNum b)

theorem qLE_eq_true_iff (a b : TagInfo) (ha : a.Priority ≠ JNum.nan)
    (hb : b.Priority ≠ JNum.nan) : qLE a b = true ↔ qOrdered a b := by
  unfold qLE qCmp qOrdered
  cases hpa : a.Priority with
  | nan => exact absurd hpa ha
  | posInf =>
    cases hpb : b.Priority with
    | nan => exact absurd hpb hb
    | posInf => simp [jsub, jsTruthy, prioLt]
    | negInf => simp [jsub, jsTruthy, prioLt]
    | fin q => simp [jsub, jsTruthy, prioLt]
  | negInf =>
    cases hpb : b.Priority with
    | nan => exact absurd hpb hb
    | posInf => simp [jsub, jsTruthy, prioLt]
    | negInf => simp [jsub, jsTruthy, prioLt]
    | fin q => simp [jsub, jsTruthy, prioLt]
  | fin p =>
    cases hpb : b.Priority with
    | nan => exact absurd hpb hb
    | posInf => simp [jsub, jsTruthy, prioLt]
    | negInf => simp [jsub, jsTruthy, prioLt]
    | fin q =>
      by_cases hpq : p = q
      · subst hpq
        simp [jsub, jsTruthy, prioLt]
      · simp only [jsub, jsTruthy, prioLt]
        rw [if_pos (by simp only [decide_eq_true_eq]; omega)]
        simp [hpq]
        omega

theorem qOrdered_total (a b : TagInfo) (ha : a.Priority ≠ JNum.nan)
    (hb : b.Priority ≠ JNum.nan) : qOrdered a b ∨ qOrdered b a := by
  unfold qOrdered
  cases hpa : a.Priority with
  | nan => exact absurd hpa ha
  | posInf =>
    cases hpb : b.Priority with
    | nan => exact absurd hpb hb
    | posInf =>
      rcases le_total (tagIdNum a) (tagIdNum b) with h | h
      · exact Or.inl (Or.inr ⟨rfl, h⟩)
      · exact Or.inr (Or.inr ⟨rfl, h⟩)
    | negInf => exact Or.inr (Or.inl (by simp [prioLt]))
    | fin q => exact Or.inr (Or.inl (by simp [prioLt]))
  | negInf =>
    cases hpb : b.Priority with
    | nan => exact absurd hpb hb
    | posInf => exact Or.inl (Or.inl (by simp [prioLt]))
    | negInf =>
      rcases le_total (tagIdNum a) (tagIdNum b) with h | h
      · exact Or.inl (Or.inr ⟨rfl, h⟩)
      · exact Or.inr (Or.inr ⟨rfl, h⟩)
    | fin q => exact Or.inl (Or.inl (by simp [prioLt]))
  | fin p =>
    cases hpb : b.Priority with
    | nan => exact absurd hpb hb
    | posInf => exact Or.inl (Or.inl (by simp [prioLt]))
    | negInf => exact Or.inr (Or.inl (by simp [prioLt]))
    | fin q =>
      rcases lt_trichotomy p q with h | h | h
      · refine Or.inl (Or.inl ?_)
        simp only [prioLt, decide_eq_true_eq]
        omega
      · subst h
        rcases le_total (tagIdNum a) (tagIdNum b) with h | h
        · exact Or.inl (Or.inr ⟨rfl, h⟩)
        · exact Or.inr (Or.inr ⟨rfl, h⟩)
      · refine Or.inr (Or.inl ?_)
        simp only [prioLt, decide_eq_true_eq]
        omega

theorem prioLt_trans {x y z : JNum} (h1 : prioLt x y = true)
    (h2 : prioLt y z = true) : prioLt x z = true := by
  cases x <;> cases y <;> cases z <;> simp_all [prioLt]
  omega

theorem qOrdered_trans {a b c : TagInfo} (hab : qOrdered a b)
    (hbc : qOrdered b c) : qOrdered a c := by
  rcases hab with hab | ⟨heq, hid⟩
  · rcases hbc with hbc | ⟨heq2, hid2⟩
    · exact Or.inl (prioLt_trans hab hbc)
    · exact Or.inl (heq2 ▸ hab)
  · rcases hbc with hbc | ⟨heq2, hid2⟩
    · exact Or.inl (heq ▸ hbc)
    · exact Or.inr ⟨heq.trans heq2, le_trans hid hid2⟩

theorem mem_insertQ (x : TagInfo) (l : List TagInfo) (z : TagInfo) :
    z ∈ insertQ x l ↔ z = x ∨ z ∈ l := by
  induction l with
  | nil => simp [insertQ]
  | cons y l ih =>
    simp only [insertQ]
    split_ifs with h
    · simp [List.mem_cons]
    · simp only [List.mem_cons, ih]
      tauto

theorem insertQ_perm (x : TagInfo) (l : List TagInfo) :
    List.Perm (insertQ x l) (x :: l) := by
  induction l with
  | nil => simp [insertQ]
  | cons y l ih =>
    simp only [insertQ]
    split_ifs with h
    · exact List.Perm.refl _
    · exact (List.Perm.cons y ih).trans (List.Perm.swap x y l)

theorem sortQ_perm (l : List TagInfo) : List.Perm (sortQ l) l := by
  induction l with
  | nil => simp [sortQ]
  | cons x l ih =>
    simp only [sortQ]
    exact (insertQ_perm x (sortQ l)).trans (List.Perm.cons x ih)

theorem pairwise_insertQ (x : TagInfo) (l : List TagInfo)
    (hx : x.Priority ≠ JNum.nan) (hl : ∀ y ∈ l, y.Priority ≠ JNum.nan)
    (h : l.Pairwise qOrdered) : (insertQ x l).Pairwise qOrdered := by
  induction l with
  | nil => simp [insertQ]
  | cons y l ih =>
    have hy := hl y (List.mem_cons_self _ _)
    have hl' : ∀ z ∈ l, z.Priority ≠ JNum.nan := fun z hz => hl z (List.mem_cons_of_mem _ hz)
    rw [List.pairwise_cons] at h
    simp only [insertQ]
    split_ifs with hle
    · refine List.pairwise_cons.mpr ⟨?_, List.pairwise_cons.mpr h⟩
      intro z hz
      rcases List.mem_cons.mp hz with hzy | hz'
      · subst hzy
        exact (qLE_eq_true_iff x z hx hy).mp hle
      · exact qOrdered_trans ((qLE_eq_true_iff x y hx hy).mp hle) (h.1 z hz')
    · refine List.pairwise_cons.mpr ⟨?_, ih hl' h.2⟩
      intro z hz
      rcases (mem_insertQ x l z).mp hz with hzx | hz'
      · subst hzx
        rcases qOrdered_total z y hx hy with hzy | hyz
        · exact absurd ((qLE_eq_true_iff z y hx hy).mpr hzy) (by simp [hle])
        · exact hyz
      · exact h.1 z hz'

theorem sortQ_pairwise (l : List TagInfo)
    (hl : ∀ y ∈ l, y.Priority ≠ JNum.nan) : (sortQ l).Pairwise qOrdered := by
  induction l with
  | nil => simp [sortQ]
  | cons x l ih =>
    have hx := hl x (List.mem_cons_self _ _)
    have hl' : ∀ z ∈ l, z.Priority ≠ JNum.nan := fun z hz => hl z (List.mem_cons_of_mem _ hz)
    simp only [sortQ]
    refine pairwise_insertQ x (sortQ l) hx ?_ (ih hl')
    intro y hy
    exact hl' y ((sortQ_perm l).mem_iff.mp hy)

/-! ### Deduplication of shaped questions -/

theorem dedupeTagsSeen_subset {seen : List Int} {l : List TagInfo} {t : TagInfo}
    (h : t ∈ dedupeTagsSeen seen l) : t ∈ l := by
  induction l generalizing seen with
  | nil => simp [dedupeTagsSeen] at h
  | cons y l ih =>
    simp only [dedupeTagsSeen] at h
    split_ifs at h with hy
    · exact List.mem_cons_of_mem _ (ih h)
    · rcases List.mem_cons.mp h with rfl | h'
      · exact List.mem_cons_self _ _
      · exact List.mem_cons_of_mem _ (ih h')

theorem dedupeTagsSeen_ids {seen : List Int} {l : List TagInfo} {i : Int}
    (h : i ∈ (dedupeTagsSeen seen l).map tagIdNum) : i ∉ seen := by
  induction l generalizing seen with
  | nil => simp [dedupeTagsSeen] at h
  | cons y l ih =>
    simp only [dedupeTagsSeen] at h
    split_ifs at h with hy
    · exact ih h
    · have hys : tagIdNum y ∉ seen := by simpa using hy
      rcases List.mem_cons.mp (by simpa using h : i ∈ tagIdNum y :: (dedupeTagsSeen (tagIdNum y :: seen) l).map tagIdNum) with rfl | h'
      · exact hys
      · intro hs
        exact ih h' (List.mem_cons_of_mem _ hs)

theorem nodup_dedupeTagsSeen_ids (seen : List Int) (l : List TagInfo) :
    ((dedupeTagsSeen seen l).map tagIdNum).Nodup := by
  induction l generalizing seen with
  | nil => simp [dedupeTagsSeen]
  | cons y l ih =>
    simp only [dedupeTagsSeen]
    split_ifs with hy
    · exact ih seen
    · simp only [List.map_cons, List.nodup_cons]
      refine ⟨?_, ih _⟩
      intro hmem
      exact dedupeTagsSeen_ids hmem (List.mem_cons_self _ _)

theorem dedupeByTagId_cons (t : TagInfo) (ts : List TagInfo) :
    dedupeByTagId (t :: ts) = t :: dedupeTagsSeen [tagIdNum t] ts := by
  simp [dedupeByTagId, dedupeTagsSeen]

/-! ### Clause evaluation: claim-side definitions and bridge lemmas -/

/-- The claim's `value(tagId)`: the tag's entry in the truth mapping when
present and `0` otherwise. -/
def specVal (assigned : List (Int × Int)) (t : Int) : Int := (jsGet assigned t).getD 0

/-- The claim's verdict rule (spec §4.6): `-1` if some include tag is denied;
else `-1` if some exclude tag is present; else `1` if every include tag is `1`
and every exclude tag is `-1` (vacuously for empty lists); else `0`. -/
def specClauseVerdict (value : Int → Int) (inc exc : List Int) : Int :=
  if ∃ t ∈ inc, value t = -1 then -1
  else if ∃ t ∈ exc, value t = 1 then -1
  else if (∀ t ∈ inc, value t = 1) ∧ (∀ t ∈ exc, value t = -1) then 1 else 0

theorem tagVal_eq_neg_iff (a : List (Int × Int)) (t : Int) :
    tagVal a t = -1 ↔ specVal a t = -1 := by
  unfold tagVal specVal
  cases jsGet a t with
  | none => simp
  | some v =>
    simp only [Option.getD_some]
    split_ifs with h1 h2 <;> simp_all

theorem tagVal_eq_one_iff (a : List (Int × Int)) (t : Int) :
    tagVal a t = 1 ↔ specVal a t = 1 := by
  unfold tagVal specVal
  cases jsGet a t with
  | none => simp
  | some v =>
    simp only [Option.getD_some]
    split_ifs with h1 h2 <;> simp_all

/-- The per-row verdict computed by the source equals the claim's rule with
raw mapping values: the coercion of non-tri-state entries to `0` is invisible
to the `= 1` / `= -1` comparisons. -/
theorem clauseVerdict_eq_spec (a : List (Int × Int)) (inc exc : List Int) :
    clauseVerdict (tagVal a) inc exc = specClauseVerdict (specVal a) inc exc := by
  have h1 : ((inc.any fun t => tagVal a t = -1) = true) ↔ ∃ t ∈ inc, specVal a t = -1 := by
    simp [List.any_eq_true, tagVal_eq_neg_iff]
  have h2 : ((exc.any fun t => tagVal a t = 1) = true) ↔ ∃ t ∈ exc, specVal a t = 1 := by
    simp [List.any_eq_true, tagVal_eq_one_iff]
  have h3 : ((inc.all fun t => tagVal a t = 1) = true) ↔ ∀ t ∈ inc, specVal a t = 1 := by
    simp [List.all_eq_true, tagVal_eq_one_iff]
  have h4 : ((exc.all fun t => tagVal a t = -1) = true) ↔ ∀ t ∈ exc, specVal a t = -1 := by
    simp [List.all_eq_true, tagVal_eq_neg_iff]
  unfold clauseVerdict specClauseVerdict
  have e1 : (if inc.length = 0 then true else inc.all fun t => tagVal a t = 1) =
      (inc.all fun t => tagVal a t = 1) := by
    cases inc <;> simp
  have e2 : (if exc.length = 0 then true else exc.all fun t => tagVal a t = -1) =
      (exc.all fun t => tagVal a t = -1) := by
    cases exc <;> simp
  rw [e1, e2]
  by_cases c1 : ∃ t ∈ inc, specVal a t = -1
  · rw [if_pos (h1.mpr c1), if_pos c1]
  · rw [if_neg (fun hb => c1 (h1.mp hb)), if_neg c1]
    by_cases c2 : ∃ t ∈ exc, specVal a t = 1
    · rw [if_pos (h2.mpr c2), if_pos c2]
    · rw [if_neg (fun hb => c2 (h2.mp hb)), if_neg c2]
      by_cases c3 : (∀ t ∈ inc, specVal a t = 1) ∧ (∀ t ∈ exc, specVal a t = -1)
      · rw [if_pos ⟨h3.mpr c3.1, h4.mpr c3.2⟩, if_pos c3]
      · rw [if_neg (fun hb => c3 ⟨h3.mp hb.1, h4.mp hb.2⟩), if_neg c3]

/-- The row key used by `evaluateClauses` (`Number(r[iPc])` with the
header-or-first-column fallback). -/
def pcKeyOf (head : Row) (r : Row) : JNum :=
  cellToNum (rowGet r (some ((findCol head ["pc", "id"]).getD 0)))

/-- The parsed `Include_If_List` of a row. -/
def incListOf (head : Row) (r : Row) : List Int :=
  uniqNums (parseList (rowGet r (findCol head ["include", "if", "list"])))

/-- The parsed `Exclude_If_List` of a row. -/
def excListOf (head : Row) (r : Row) : List Int :=
  uniqNums (parseList (rowGet r (findCol head ["exclude", "if", "list"])))

theorem evaluateClauses_eq (assigned : List (Int × Int)) (head : Row) (rows : List Row) :
    evaluateClauses assigned (head :: rows) =
      rows.map (fun r =>
        (pcKeyOf head r, clauseVerdict (tagVal assigned) (incListOf head r) (excListOf head r))) :=
  rfl

theorem clauseVerdict_eq_ite (value : Int → Int) (inc exc : List Int) :
    clauseVerdict value inc exc =
      if inc.any (fun t => value t = -1) then -1
      else if exc.any (fun t => value t = 1) then -1
      else if (inc.all fun t => value t = 1) ∧ (exc.all fun t => value t = -1) then 1
      else 0 := by
  unfold clauseVerdict
  cases inc <;> cases exc <;> simp

theorem clauseVerdict_neg_mono (a a' : List (Int × Int))
    (hmono : ∀ t : Int, tagVal a' t = tagVal a t ∨ (tagVal a t = 0 ∧ tagVal a' t = 1))
    (inc exc : List Int)
    (h : clauseVerdict (tagVal a) inc exc = -1) :
    clauseVerdict (tagVal a') inc exc = -1 := by
  rw [clauseVerdict_eq_ite] at h ⊢
  by_cases h1 : (inc.any fun t => tagVal a t = -1) = true
  · have hex : ∃ t ∈ inc, tagVal a t = -1 := by simpa [List.any_eq_true] using h1
    obtain ⟨t, ht, hv⟩ := hex
    have hv' : tagVal a' t = -1 := by
      rcases hmono t with he | ⟨h0, -⟩
      · rw [he, hv]
      · rw [h0] at hv; simp at hv
    have h1' : (inc.any fun t => tagVal a' t = -1) = true := by
      simp only [List.any_eq_true, decide_eq_true_eq]
      exact ⟨t, ht, hv'⟩
    rw [if_pos h1']
  · rw [if_neg h1] at h
    by_cases h2 : (exc.any fun t => tagVal a t = 1) = true
    · have hex : ∃ t ∈ exc, tagVal a t = 1 := by simpa [List.any_eq_true] using h2
      obtain ⟨t, ht, hv⟩ := hex
      have hv' : tagVal a' t = 1 := by
        rcases hmono t with he | ⟨h0, -⟩
        · rw [he, hv]
        · rw [h0] at hv; simp at hv
      by_cases g1 : (inc.any fun t => tagVal a' t = -1) = true
      · rw [if_pos g1]
      · rw [if_neg g1]
        have h2' : (exc.any fun t => tagVal a' t = 1) = true := by
          simp only [List.any_eq_true, decide_eq_true_eq]
          exact ⟨t, ht, hv'⟩
        rw [if_pos h2']
    · rw [if_neg h2] at h
      exfalso
      split_ifs at h

/-- Claim C1: for every clause row of the restricted clause table (its numeric
`PC_ID` key not repeated by any later row, so that its verdict is the one kept
in the result object) and every tag-truth mapping, `evaluateClauses` assigns
that key the verdict given by the ordered include/exclude rules of spec §4.6,
with a tag's value read from the mapping when present and `0` otherwise
(whether or not the tag exists in the Tag table, which the evaluator never
consults). -/
theorem claim_c1 (assignedTags : List (Int × Int)) (head : Row)
    (pre post : List Row) (r : Row)
    (hpost : ∀ r' ∈ post, pcKeyOf head r' ≠ pcKeyOf head r) :
    jsGet (evaluateClauses assignedTags (head :: (pre ++ r :: post))) (pcKeyOf head r) =
      some (specClauseVerdict (specVal assignedTags) (incListOf head r) (excListOf head r)) := by
  rw [evaluateClauses_eq]
  rw [jsGet_map_last (pcKeyOf head)
    (fun r' => clauseVerdict (tagVal assignedTags) (incListOf head r') (excListOf head r'))
    pre post r hpost]
  rw [clauseVerdict_eq_spec]

def wClauseHead : Row := [Cell.str ("PC_ID"), Cell.str ("Include_If_List"), Cell.str ("Exclude_If_List")]
def wClauseRow1 : Row := [Cell.num (.fin 1), Cell.str ("10"), Cell.str ("20")]
def wClauseRow2 : Row := [Cell.num (.fin 2), Cell.str "", Cell.str ""]

theorem claim_c1_witness :
    jsGet (evaluateClauses [(10, 1), (20, -1)] (wClauseHead :: ([] ++ wClauseRow1 :: [wClauseRow2])))
        (pcKeyOf wClauseHead wClauseRow1) =
      some (specClauseVerdict (specVal [(10, 1), (20, -1)])
        (incListOf wClauseHead wClauseRow1) (excListOf wClauseHead wClauseRow1)) :=
  claim_c1 [(10, 1), (20, -1)] wClauseHead [] [wClauseRow2] wClauseRow1 (by decide)

/-- Claim C5: within one evaluation cycle, turning some tags that were `0` (or
absent) into `1` can never flip a clause verdict from `-1`: the `-1` verdict is
sticky under additional positive answers. -/
theorem claim_c5 (a a' : List (Int × Int)) (tbl : Table) (pc : JNum)
    (hmono : ∀ t : Int, tagVal a' t = tagVal a t ∨ (tagVal a t = 0 ∧ tagVal a' t = 1))
    (hneg : jsGet (evaluateClauses a tbl) pc = some (-1)) :
    jsGet (evaluateClauses a' tbl) pc = some (-1) := by
  cases tbl with
  | nil => simp [evaluateClauses, jsGet] at hneg
  | cons head rows =>
    rw [evaluateClauses_eq] at hneg ⊢
    rw [jsGet_map_val (pcKeyOf head)
      (fun r => clauseVerdict (tagVal a) (incListOf head r) (excListOf head r)) rows pc] at hneg
    rw [jsGet_map_val (pcKeyOf head)
      (fun r => clauseVerdict (tagVal a') (incListOf head r) (excListOf head r)) rows pc]
    cases hrow : jsGet (rows.map fun x => (pcKeyOf head x, x)) pc with
    | none => rw [hrow] at hneg; simp at hneg
    | some row =>
      rw [hrow] at hneg
      simp only [Option.map_some'] at hneg ⊢
      have hm := clauseVerdict_neg_mono a a' hmono (incListOf head row) (excListOf head row)
        (by simpa using hneg)
      simpa using hm

theorem claim_c5_witness :
    jsGet (evaluateClauses [((10 : Int), (-1 : Int))] (wClauseHead :: [wClauseRow1]))
        (JNum.fin 1) = some (-1) ∧
    jsGet (evaluateClauses [((10 : Int), (-1 : Int)), ((20 : Int), (1 : Int))]
        (wClauseHead :: [wClauseRow1])) (JNum.fin 1) = some (-1) := by
  refine ⟨by decide, ?_⟩
  refine claim_c5 [(10, -1)] [(10, -1), (20, 1)] (wClauseHead :: [wClauseRow1]) (JNum.fin 1)
    ?_ (by decide)
  intro t
  by_cases h10 : t = 10
  · subst h10; left; decide
  · by_cases h20 : t = 20
    · subst h20; right; exact ⟨by decide, by decide⟩
    · left
      have h10' : ¬ (10 : Int) = t := fun hx => h10 hx.symm
      have h20' : ¬ (20 : Int) = t := fun hx => h20 hx.symm
      have e1 : tagVal [((10 : Int), (-1 : Int)), ((20 : Int), (1 : Int))] t = 0 := by
        simp [tagVal, jsGet, h10', h20']
      have e2 : tagVal [((10 : Int), (-1 : Int))] t = 0 := by
        simp [tagVal, jsGet, h10']
      rw [e1, e2]

/-- Claim C6: a clause whose parsed include and exclude lists are both empty
always gets verdict `1`, for every tag-truth mapping. -/
theorem claim_c6 (assignedTags : List (Int × Int)) (head : Row)
    (pre post : List Row) (r : Row)
    (hpost : ∀ r' ∈ post, pcKeyOf head r' ≠ pcKeyOf head r)
    (hinc : incListOf head r = [])
    (hexc : excListOf head r = []) :
    jsGet (evaluateClauses assignedTags (head :: (pre ++ r :: post))) (pcKeyOf head r) =
      some 1 := by
  rw [evaluateClauses_eq]
  rw [jsGet_map_last (pcKeyOf head)
    (fun r' => clauseVerdict (tagVal assignedTags) (incListOf head r') (excListOf head r'))
    pre post r hpost]
  rw [hinc, hexc]
  simp [clauseVerdict]

theorem claim_c6_witness :
    jsGet (evaluateClauses [((7 : Int), (-1 : Int))] (wClauseHead :: ([wClauseRow1] ++ wClauseRow2 :: [])))
        (pcKeyOf wClauseHead wClauseRow2) = some 1 :=
  claim_c6 [(7, -1)] wClauseHead [wClauseRow1] [] wClauseRow2 (by decide) (by decide) (by decide)

/-- Claim C10: `filterTableByIds` returns `[]` for an empty (or absent) table;
only the header row when the table is non-empty but the id list is empty (or
absent); and otherwise the header followed by exactly the data rows whose
first-column value, compared as a number, is in the id list, in the table's
original row order. -/
theorem claim_c10 (aoa : Table) (ids : List JNum) :
    (aoa = [] → filterTableByIds aoa ids = []) ∧
    (∀ h t, aoa = h :: t → ids = [] → filterTableByIds aoa ids = [h]) ∧
    (∀ h t, aoa = h :: t → ids ≠ [] →
      filterTableByIds aoa ids =
        h :: t.filter (fun r => ids.contains (cellToNum (rowGet r (some 0))))) := by
  refine ⟨?_, ?_, ?_⟩
  · rintro rfl; rfl
  · rintro h t rfl rfl; rfl
  · rintro h t rfl hne
    simp only [filterTableByIds]
    rw [if_neg (by simpa [List.isEmpty_iff] using hne)]

theorem claim_c10_witness :
    filterTableByIds [] [JNum.fin 1] = [] ∧
    filterTableByIds [wClauseHead, wClauseRow1] [] = [wClauseHead] ∧
    filterTableByIds [wClauseHead, wClauseRow1, wClauseRow2] [JNum.fin 1] =
      [wClauseHead, wClauseRow1] := by
  refine ⟨(claim_c10 [] [JNum.fin 1]).1 rfl,
    (claim_c10 [wClauseHead, wClauseRow1] []).2.1 wClauseHead [wClauseRow1] rfl rfl, ?_⟩
  have h := (claim_c10 [wClauseHead, wClauseRow1, wClauseRow2] [JNum.fin 1]).2.2
    wClauseHead [wClauseRow1, wClauseRow2] rfl (by decide)
  rw [h]
  decide

/-! ### Tag answer evaluation (claim C3) -/

/-- The tag-table row index built by `evaluateTagsBuildMode`
(`Map` keyed by `Number(r[iId])`, last row wins). -/
def tagRowById (head : Row) (rows : List Row) : List (JNum × Row) :=
  rows.map (fun r => (cellToNum (rowGet r (some ((findCol head ["tag", "id"]).getD 0))), r))

/-- The contribution of one answer-mapping entry to the build-mode result
(the body of the source's `for (const [k, v] of Object.entries(...))` loop). -/
def buildEntry (head : Row) (rows : List Row) (kv : String × Cell) : List (JNum × Int) :=
  match jsGet (tagRowById head rows) (strToNum kv.1) with
  | none => []
  | some row =>
    let entryCat := canon (rowGet row (findCol head ["entry", "category"]))
    let entryType := canon (rowGet row (findCol head ["entry", "type"]))
    let value : Int :=
      if entryCat = "bool" then
        (if canon kv.2 = "yes" then 1 else if canon kv.2 = "no" then -1 else 0)
      else if entryType = "no display" then
        (if jsTrim (cellNNStr kv.2) ≠ "" then 1 else 0)
      else
        (if jsTrim (cellNNStr kv.2) ≠ "" then 1 else 0)
    [(strToNum kv.1, value)]

theorem evaluateTagsBuildMode_eq (answered : List (String × Cell)) (head : Row)
    (rows : List Row) :
    evaluateTagsBuildMode answered (head :: rows) =
      answered.flatMap (buildEntry head rows) := rfl

/-- The claim's per-tag value rule: `"bool"` entry category selects yes/no
semantics; anything else (including a no-display entry type) maps a non-empty
trimmed answer to `1` and an empty one to `0`. -/
def specAnswerValue (entryCategory : String) (answer : Cell) : Int :=
  if entryCategory = "bool" then
    (if canon answer = "yes" then 1 else if canon answer = "no" then -1 else 0)
  else if jsTrim (cellNNStr answer) ≠ "" then 1 else 0

theorem buildEntry_value (head : Row) (rows : List Row) (kv : String × Cell) (row : Row)
    (hrow : jsGet (tagRowById head rows) (strToNum kv.1) = some row) :
    buildEntry head rows kv =
      [(strToNum kv.1,
        specAnswerValue (canon (rowGet row (findCol head ["entry", "category"]))) kv.2)] := by
  unfold buildEntry specAnswerValue
  simp only [hrow]
  split_ifs <;> rfl

theorem buildEntry_key (head : Row) (rows : List Row) (kv : String × Cell)
    (p : JNum × Int) (hp : p ∈ buildEntry head rows kv) : p.1 = strToNum kv.1 := by
  unfold buildEntry at hp
  cases h : jsGet (tagRowById head rows) (strToNum kv.1) with
  | none => simp only [h] at hp; simp at hp
  | some row =>
    simp only [h, List.mem_singleton] at hp
    rw [hp]

theorem jsGet_append_isSome {κ β : Type} [DecidableEq κ] (l₁ l₂ : List (κ × β)) (k : κ) :
    (jsGet (l₁ ++ l₂) k).isSome ↔ (jsGet l₁ k).isSome ∨ (jsGet l₂ k).isSome := by
  rw [jsGet_append]
  cases jsGet l₂ k <;> cases jsGet l₁ k <;> simp

theorem jsGet_flatMap_isSome {α κ β : Type} [DecidableEq κ] (f : α → List (κ × β))
    (l : List α) (k : κ) :
    (jsGet (l.flatMap f) k).isSome ↔ ∃ a ∈ l, (jsGet (f a) k).isSome := by
  induction l with
  | nil => simp [jsGet]
  | cons x l ih =>
    rw [List.flatMap_cons, jsGet_append_isSome, ih]
    simp only [List.mem_cons]
    constructor
    · rintro (hx | ⟨a, ha, hfa⟩)
      · exact ⟨x, Or.inl rfl, hx⟩
      · exact ⟨a, Or.inr ha, hfa⟩
    · rintro ⟨a, ha | ha, hfa⟩
      · subst ha; exact Or.inl hfa
      · exact Or.inr ⟨a, ha, hfa⟩

theorem jsGet_flatMap_none {α κ β : Type} [DecidableEq κ] (f : α → List (κ × β))
    (l : List α) (k : κ) (h : ∀ a ∈ l, ∀ p ∈ f a, p.1 ≠ k) :
    jsGet (l.flatMap f) k = none := by
  rw [jsGet_eq_none_iff]
  intro p hp
  simp only [List.mem_flatMap] at hp
  obtain ⟨a, ha, hpa⟩ := hp
  exact h a ha p hpa

theorem jsGet_flatMap_last {α κ β : Type} [DecidableEq κ] (f : α → List (κ × β))
    (pre post : List α) (x : α) (k : κ) {v : β}
    (hpost : jsGet (post.flatMap f) k = none)
    (hx : jsGet (f x) k = some v) :
    jsGet ((pre ++ x :: post).flatMap f) k = some v := by
  rw [List.flatMap_append, List.flatMap_cons, jsGet_append, jsGet_append, hpost, hx]

/-- Claim C3: `evaluateTagsBuildMode` produces a truth value exactly for the
tag identifiers that occur both as (numeric) keys of the answer mapping and as
(numeric) identifiers of rows of the restricted tag table; the value for such
a tag follows the per-tag rule of spec §4.5, computed from the last mapping
entry (JS object assignment) and the last table row (Map construction) with
that identifier. -/
theorem claim_c3 (answered : List (String × Cell)) (head : Row) (rows : List Row)
    (id : JNum) :
    ((jsGet (evaluateTagsBuildMode answered (head :: rows)) id).isSome ↔
      ((∃ kv ∈ answered, strToNum kv.1 = id) ∧
        ∃ r ∈ rows,
          cellToNum (rowGet r (some ((findCol head ["tag", "id"]).getD 0))) = id)) ∧
    (∀ pre kv post row, answered = pre ++ kv :: post →
      strToNum kv.1 = id →
      (∀ kv' ∈ post, strToNum kv'.1 ≠ id) →
      jsGet (tagRowById head rows) id = some row →
      jsGet (evaluateTagsBuildMode answered (head :: rows)) id =
        some (specAnswerValue
          (canon (rowGet row (findCol head ["entry", "category"]))) kv.2)) := by
  constructor
  · rw [evaluateTagsBuildMode_eq, jsGet_flatMap_isSome]
    have hrowiff : (jsGet (tagRowById head rows) id).isSome ↔
        ∃ r ∈ rows,
          cellToNum (rowGet r (some ((findCol head ["tag", "id"]).getD 0))) = id := by
      rw [jsGet_isSome_iff]
      unfold tagRowById
      simp [List.mem_map]
    constructor
    · rintro ⟨kv, hkv, hsome⟩
      unfold buildEntry at hsome
      cases h : jsGet (tagRowById head rows) (strToNum kv.1) with
      | none => rw [h] at hsome; simp [jsGet] at hsome
      | some row =>
        rw [h] at hsome
        have hk : strToNum kv.1 = id := by
          by_contra hne
          simp [jsGet, hne] at hsome
        refine ⟨⟨kv, hkv, hk⟩, hrowiff.mp ?_⟩
        rw [← hk]
        simp [h]
    · rintro ⟨⟨kv, hkv, hk⟩, hr⟩
      refine ⟨kv, hkv, ?_⟩
      obtain ⟨row, hrow⟩ := Option.isSome_iff_exists.mp (hrowiff.mpr hr)
      rw [buildEntry_value head rows kv row (by rw [hk]; exact hrow)]
      simp [jsGet, hk]
  · rintro pre kv post row rfl hk hpost hrow
    rw [evaluateTagsBuildMode_eq]
    refine jsGet_flatMap_last (buildEntry head rows) pre post kv id ?_ ?_
    · refine jsGet_flatMap_none (buildEntry head rows) post id ?_
      intro a ha p hp
      rw [buildEntry_key head rows a p hp]
      exact hpost a ha
    · rw [buildEntry_value head rows kv row (by rw [hk]; exact hrow)]
      simp [jsGet, hk]

def wTagHead : Row :=
  [Cell.str ("Tag_ID"), Cell.str ("Entry_Category"), Cell.str ("Entry_Type")]
def wTagRow10 : Row := [Cell.num (.fin 10), Cell.str ("Bool"), Cell.str ("Text")]
def wTagRow20 : Row := [Cell.num (.fin 20), Cell.str "", Cell.str ("No_Display")]

theorem claim_c3_witness :
    ((jsGet (evaluateTagsBuildMode [("10", Cell.str ("Yes"))] (wTagHead :: [wTagRow10, wTagRow20]))
        (JNum.fin 10)).isSome ↔
      ((∃ kv ∈ [("10", Cell.str ("Yes"))], strToNum kv.1 = JNum.fin 10) ∧
        ∃ r ∈ [wTagRow10, wTagRow20],
          cellToNum (rowGet r (some ((findCol wTagHead ["tag", "id"]).getD 0))) = JNum.fin 10)) ∧
    jsGet (evaluateTagsBuildMode [("10", Cell.str ("Yes"))] (wTagHead :: [wTagRow10, wTagRow20]))
        (JNum.fin 10) =
      some (specAnswerValue
        (canon (rowGet wTagRow10 (findCol wTagHead ["entry", "category"])))
        (Cell.str ("Yes"))) := by
  have h := claim_c3 [("10", Cell.str ("Yes"))] wTagHead [wTagRow10, wTagRow20] (JNum.fin 10)
  exact ⟨h.1, h.2 [] ("10", Cell.str ("Yes")) [] wTagRow10 rfl (by decide) (by decide) (by decide)⟩

/-! ### Template resolution (claims C2 and C7) -/

/-- The claim's clause-identifier set for a template: the deduplicated,
ascending-sorted union of the numeric `Associated_Clause_Array` entries over
all Variable rows whose `Object_Name` canonically matches some name of the
template's `Variable_Array` and whose `Variable_Type` canonically equals
`"clause"`. -/
def specResolvedClauses (vT : Table) (varList : List String) : List Int :=
  match vT with
  | [] => []
  | vHead :: vRows =>
    List.insertionSort (· ≤ ·) (dedupFirst
      ((vRows.filter (fun r =>
          (varList.any fun nm =>
            canon (rowGet r (findCol vHead ["object", "name"])) = canon (Cell.str nm)) ∧
          canon (rowGet r (findCol vHead ["variable", "type"])) = "clause")).flatMap
        (fun r => uniqNums (parseList (rowGet r (findCol vHead ["associated", "clause", "array"]))))))

/-- The claim's tag-identifier set: the deduplicated, ascending-sorted union of
the numeric `Tags_Array` entries of the clause rows whose `PC_ID` is one of the
resolved clause identifiers. -/
def specResolvedTags (cT : Table) (clauses : List Int) : List Int :=
  match cT with
  | [] => []
  | cHead :: cRows =>
    List.insertionSort (· ≤ ·) (dedupFirst
      ((cRows.filter (fun r =>
          clauses.any fun pc =>
            cellToNum (rowGet r (some ((findCol cHead ["pc", "id"]).getD 0))) = JNum.fin pc)).flatMap
        (fun r => uniqNums (parseList (rowGet r (findCol cHead ["tags", "array"]))))))

theorem mem_match_option (o : Option Row) (f : Row → List Int) (x : Int) :
    (x ∈ match o with
      | none => ([] : List Int)
      | some row => f row) ↔ ∃ row, o = some row ∧ x ∈ f row := by
  cases o <;> simp

/-- Claim C2: for a template name canonically matching a Template row, the
resolver returns exactly the claim's clause set, the claim's tag set over
those clauses (the clause table's `PC_ID` keys being unique, as the data model
states), and is deterministic. -/
theorem claim_c2 (tb : Tables) (templateName : String)
    (tHead vHead cHead : Row) (tRows vRows cRows : List Row) (tRow : Row)
    (hT : tb.templatesTable = tHead :: tRows)
    (hV : tb.variablesTable = vHead :: vRows)
    (hC : tb.clausesTable = cHead :: cRows)
    (hfind : tRows.find? (fun r =>
      canon (rowGet r (findCol tHead ["name"])) = canon (Cell.str templateName)) = some tRow)
    (hnodup : (cRows.map (fun r =>
      cellToNum (rowGet r (some ((findCol cHead ["pc", "id"]).getD 0))))).Nodup) :
    (getTagsAndClausesByTemplateName tb templateName).clausesArray =
      specResolvedClauses tb.variablesTable
        (parseList (rowGet tRow (findCol tHead ["variable", "array"]))) ∧
    (getTagsAndClausesByTemplateName tb templateName).tagsArray =
      specResolvedTags tb.clausesTable
        ((getTagsAndClausesByTemplateName tb templateName).clausesArray) ∧
    getTagsAndClausesByTemplateName tb templateName =
      getTagsAndClausesByTemplateName tb templateName := by
  obtain ⟨tT, vT, cT⟩ := tb
  simp only at hT hV hC
  subst hT hV hC
  simp only [getTagsAndClausesByTemplateName, hfind]
  set varList := parseList (rowGet tRow (findCol tHead ["variable", "array"])) with hvarList
  by_cases hvl : varList.isEmpty
  · have hnil : varList = [] := List.isEmpty_iff.mp hvl
    rw [if_pos hvl]
    refine ⟨?_, ?_, trivial⟩
    · simp only [specResolvedClauses, hnil]
      simp [List.filter_eq_nil_iff]
    · simp only [specResolvedTags]
      simp [List.filter_eq_nil_iff]
  · rw [if_neg hvl]
    have hclauses :
        List.insertionSort (· ≤ ·) (uniqNumsInt
          (varList.flatMap (fun name =>
            (vRows.filter (fun r =>
              canon (rowGet r (findCol vHead ["object", "name"])) = canon (Cell.str name) ∧
              canon (rowGet r (findCol vHead ["variable", "type"])) = "clause")).flatMap
            (fun r => uniqNums (parseList (rowGet r (findCol vHead ["associated", "clause", "array"]))))))) =
        specResolvedClauses (vHead :: vRows) varList := by
      unfold specResolvedClauses uniqNumsInt
      apply sortDedup_congr
      intro x
      simp only [List.mem_flatMap, List.mem_filter, decide_eq_true_eq, List.any_eq_true]
      constructor
      · rintro ⟨nm, hnm, r, ⟨hr, hobj, htype⟩, hx⟩
        exact ⟨r, ⟨hr, ⟨nm, hnm, hobj⟩, htype⟩, hx⟩
      · rintro ⟨r, ⟨hr, ⟨nm, hnm, hobj⟩, htype⟩, hx⟩
        exact ⟨nm, hnm, r, ⟨hr, hobj, htype⟩, hx⟩
    refine ⟨hclauses, ?_, trivial⟩
    set clausesArray := specResolvedClauses (vHead :: vRows) varList with hca
    rw [hclauses]
    have htags :
        List.insertionSort (· ≤ ·) (uniqNumsInt
          (clausesArray.flatMap (fun pc =>
            match jsGet (cRows.map (fun r =>
                (cellToNum (rowGet r (some ((findCol cHead ["pc", "id"]).getD 0))), r)))
                (JNum.fin pc) with
            | none => []
            | some row => uniqNums (parseList (rowGet row (findCol cHead ["tags", "array"])))))) =
        specResolvedTags (cHead :: cRows) clausesArray := by
      unfold specResolvedTags uniqNumsInt
      apply sortDedup_congr
      intro x
      simp only [List.mem_flatMap, List.mem_filter, decide_eq_true_eq, List.any_eq_true]
      constructor
      · rintro ⟨pc, hpc, hx⟩
        rw [mem_match_option] at hx
        obtain ⟨row, hrow, hx⟩ := hx
        obtain ⟨hrmem, hrkey⟩ := jsGet_map_self_mem _ hrow
        exact ⟨row, ⟨hrmem, pc, hpc, hrkey⟩, hx⟩
      · rintro ⟨row, ⟨hrmem, pc, hpc, hrkey⟩, hx⟩
        refine ⟨pc, hpc, ?_⟩
        rw [mem_match_option]
        exact ⟨row, jsGet_map_self_of_nodup _ hnodup hrmem hrkey, hx⟩
    exact htags

/-- Claim C7: for a template name not canonically present in the Template
table — under any state of the reference tables, including empty ones —
resolution returns empty clause and tag arrays and a non-empty diagnostics
list.  The embedded function is total, so no input can make it throw. -/
theorem claim_c7 (tb : Tables) (templateName : String)
    (habsent : ∀ r ∈ tb.templatesTable.drop 1,
      canon (rowGet r (findCol (tb.templatesTable.headD []) ["name"])) ≠
        canon (Cell.str templateName)) :
    (getTagsAndClausesByTemplateName tb templateName).clausesArray = [] ∧
    (getTagsAndClausesByTemplateName tb templateName).tagsArray = [] ∧
    (getTagsAndClausesByTemplateName tb templateName).debug ≠ [] := by
  obtain ⟨tT, vT, cT⟩ := tb
  cases tT with
  | nil =>
    exact ⟨rfl, rfl, by simp [getTagsAndClausesByTemplateName]⟩
  | cons tHead tRows =>
    cases vT with
    | nil => exact ⟨rfl, rfl, by simp [getTagsAndClausesByTemplateName]⟩
    | cons vHead vRows =>
      cases cT with
      | nil => exact ⟨rfl, rfl, by simp [getTagsAndClausesByTemplateName]⟩
      | cons cHead cRows =>
        have hfind : tRows.find? (fun r =>
            canon (rowGet r (findCol tHead ["name"])) = canon (Cell.str templateName)) = none := by
          rw [List.find?_eq_none]
          intro r hr
          simp only [decide_eq_true_eq]
          exact habsent r (by simpa using hr)
        refine ⟨?_, ?_, ?_⟩ <;> simp [getTagsAndClausesByTemplateName, hfind]

/-- The Scenario A reference tables of spec §8. -/
def scenATables : Tables :=
  ⟨[[Cell.str ("Name"), Cell.str ("Variable_Array")],
    [Cell.str ("Lease"), Cell.str ("Tenant, Landlord")]],
   [[Cell.str ("Object_Name"), Cell.str ("Variable_Type"), Cell.str ("Associated_Clause_Array")],
    [Cell.str ("Tenant"), Cell.str ("Clause"), Cell.str ("1,2")],
    [Cell.str ("Landlord"), Cell.str ("Clause"), Cell.str ("2,3")]],
   [[Cell.str ("PC_ID"), Cell.str ("Tags_Array")],
    [Cell.num (.fin 1), Cell.str ("10")],
    [Cell.num (.fin 2), Cell.str ("20,10")],
    [Cell.num (.fin 3), Cell.str ""]]⟩

theorem claim_c2_witness :
    ((getTagsAndClausesByTemplateName scenATables ("Lease")).clausesArray =
        specResolvedClauses scenATables.variablesTable
          (parseList (rowGet [Cell.str ("Lease"), Cell.str ("Tenant, Landlord")]
            (findCol [Cell.str ("Name"), Cell.str ("Variable_Array")] ["variable", "array"]))) ∧
      (getTagsAndClausesByTemplateName scenATables ("Lease")).tagsArray =
        specResolvedTags scenATables.clausesTable
          ((getTagsAndClausesByTemplateName scenATables ("Lease")).clausesArray) ∧
      getTagsAndClausesByTemplateName scenATables ("Lease") =
        getTagsAndClausesByTemplateName scenATables ("Lease")) ∧
    (getTagsAndClausesByTemplateName scenATables ("Lease")).clausesArray = [1, 2, 3] := by
  refine ⟨claim_c2 scenATables ("Lease")
    [Cell.str ("Name"), Cell.str ("Variable_Array")]
    [Cell.str ("Object_Name"), Cell.str ("Variable_Type"), Cell.str ("Associated_Clause_Array")]
    [Cell.str ("PC_ID"), Cell.str ("Tags_Array")]
    [[Cell.str ("Lease"), Cell.str ("Tenant, Landlord")]]
    [[Cell.str ("Tenant"), Cell.str ("Clause"), Cell.str ("1,2")],
     [Cell.str ("Landlord"), Cell.str ("Clause"), Cell.str ("2,3")]]
    [[Cell.num (.fin 1), Cell.str ("10")],
     [Cell.num (.fin 2), Cell.str ("20,10")],
     [Cell.num (.fin 3), Cell.str ""]]
    [Cell.str ("Lease"), Cell.str ("Tenant, Landlord")]
    rfl rfl rfl (by decide) (by decide), ?_⟩
  decide

theorem claim_c7_witness :
    (getTagsAndClausesByTemplateName scenATables ("Unknown Doc")).clausesArray = [] ∧
    (getTagsAndClausesByTemplateName scenATables ("Unknown Doc")).tagsArray = [] ∧
    (getTagsAndClausesByTemplateName scenATables ("Unknown Doc")).debug ≠ [] :=
  claim_c7 scenATables ("Unknown Doc") (by decide)

/-! ### Question scheduler (claims C4, C8, C9) -/

/-- The claim's `unresolved` set: clause identifiers of the universe whose
verdict is `0`. -/
def unresolvedOf (clauseEval : List (JNum × Int)) (clausesArray : List Int) : List Int :=
  clausesArray.filter (fun pc => jsGet clauseEval (JNum.fin pc) = some 0)

/-- The parsed `Tags_Array` of the clause row keyed `pc` (empty when the table
is empty or has no row with that key). -/
def tagsOfClauseRow (tbl : Table) (pc : Int) : List Int :=
  match tbl with
  | [] => []
  | head :: rows =>
    match jsGet (rows.map (fun r =>
        (cellToNum (rowGet r (some ((findCol head ["pc", "id"]).getD 0))), r))) (JNum.fin pc) with
    | none => []
    | some row => uniqNums (parseList (rowGet row (findCol head ["tags", "array"])))

/-- The scheduler's `pendingTagIds` list (its steps 4 of spec §4.7). -/
def pendingOf (clauseEval : List (JNum × Int)) (head : Row) (rows : List Row)
    (clausesArray : List Int) (assignedTags : List (Int × Int)) : List Int :=
  (uniqNumsInt ((clausesArray.filter fun pc =>
    jsGet clauseEval (JNum.fin pc) = some 0).flatMap
      (fun pc => tagsOfClauseRow (head :: rows) pc))).filter
    (fun tid => match jsGet assignedTags tid with
      | none => true
      | some v => decide (v = 0))

/-- The scheduler's question objects before deduplication and sorting. -/
def nextInfoOf (tagsInfo : List TagInfo) (pending : List Int) : List TagInfo :=
  pending.map (fun id =>
    match jsGet (tagsInfo.map fun t => (tagIdNum t, t)) id with
    | some q => q
    | none => fallbackQuestion id)

/-- The claim's `pending` predicate: `t` is referenced by the `Tags_Array` of
some unresolved clause of the universe and its truth value is missing or `0`. -/
def PendingTag (clauseEval : List (JNum × Int)) (tbl : Table) (clausesArray : List Int)
    (assignedTags : List (Int × Int)) (t : Int) : Prop :=
  (∃ pc ∈ clausesArray,
    jsGet clauseEval (JNum.fin pc) = some 0 ∧ t ∈ tagsOfClauseRow tbl pc) ∧
  (jsGet assignedTags t = none ∨ jsGet assignedTags t = some 0)

theorem pending_filter_cond (assignedTags : List (Int × Int)) (t : Int) :
    ((match jsGet assignedTags t with
      | none => true
      | some v => decide (v = 0)) = true) ↔
      (jsGet assignedTags t = none ∨ jsGet assignedTags t = some 0) := by
  cases h : jsGet assignedTags t with
  | none => simp
  | some v => simp

theorem mem_pendingOf (clauseEval : List (JNum × Int)) (head : Row) (rows : List Row)
    (clausesArray : List Int) (assignedTags : List (Int × Int)) (t : Int) :
    t ∈ pendingOf clauseEval head rows clausesArray assignedTags ↔
      PendingTag clauseEval (head :: rows) clausesArray assignedTags t := by
  unfold pendingOf uniqNumsInt
  rw [List.mem_filter, mem_dedupFirst, List.mem_flatMap, pending_filter_cond]
  unfold PendingTag
  constructor
  · rintro ⟨⟨pc, hpc, ht⟩, hcond⟩
    rw [List.mem_filter] at hpc
    exact ⟨⟨pc, hpc.1, by simpa using hpc.2, ht⟩, hcond⟩
  · rintro ⟨⟨pc, hpc, heval, ht⟩, hcond⟩
    refine ⟨⟨pc, ?_, ht⟩, hcond⟩
    rw [List.mem_filter]
    exact ⟨hpc, by simpa using heval⟩

theorem nextInfoOf_nan_free (tagsInfo : List TagInfo) (pending : List Int)
    (hnan : ∀ t ∈ tagsInfo, t.Priority ≠ JNum.nan) :
    ∀ q ∈ nextInfoOf tagsInfo pending, q.Priority ≠ JNum.nan := by
  intro q hq
  simp only [nextInfoOf, List.mem_map] at hq
  obtain ⟨id, -, hqe⟩ := hq
  cases h : jsGet (tagsInfo.map fun t => (tagIdNum t, t)) id with
  | none =>
    simp only [h] at hqe
    rw [← hqe]
    simp [fallbackQuestion]
  | some t =>
    simp only [h] at hqe
    rw [← hqe]
    exact hnan t (jsGet_map_self_mem _ h).1

theorem nextInfoOf_ne_nil (tagsInfo : List TagInfo) {pending : List Int}
    (h : pending ≠ []) : nextInfoOf tagsInfo pending ≠ [] := by
  cases pending with
  | nil => exact absurd rfl h
  | cons x xs => simp [nextInfoOf]

theorem dedupeByTagId_ne_nil {l : List TagInfo} (h : l ≠ []) : dedupeByTagId l ≠ [] := by
  cases l with
  | nil => exact absurd rfl h
  | cons t ts =>
    rw [dedupeByTagId_cons]
    exact List.cons_ne_nil _ _

theorem sortQ_ne_nil {l : List TagInfo} (h : l ≠ []) : sortQ l ≠ [] := by
  intro he
  apply h
  have hperm := sortQ_perm l
  rw [he] at hperm
  exact (hperm.symm).eq_nil

theorem sortQ_dedupe_ids_nodup (L : List TagInfo) :
    ((sortQ (dedupeByTagId L)).map tagIdNum).Nodup := by
  have hdn := nodup_dedupeTagsSeen_ids [] L
  have hperm := (sortQ_perm (dedupeByTagId L)).map tagIdNum
  exact hperm.nodup_iff.mpr hdn

theorem sortQ_dedupe_pairwise (L : List TagInfo)
    (h : ∀ y ∈ L, y.Priority ≠ JNum.nan) :
    (sortQ (dedupeByTagId L)).Pairwise qOrdered := by
  apply sortQ_pairwise
  intro y hy
  exact h y (dedupeTagsSeen_subset hy)

/-- Branch characterization of the scheduler's status on an empty table. -/
theorem rNTQ_status_nil (clauseEval : List (JNum × Int))
    (clausesArray : List Int) (assignedTags : List (Int × Int))
    (tagsArray : List Int) (tagsInfo : List TagInfo) :
    (returnNextTagQuestions clauseEval [] clausesArray assignedTags tagsArray tagsInfo).status =
      if (unresolvedOf clauseEval clausesArray).isEmpty then "done" else "ask" := by
  simp only [returnNextTagQuestions, unresolvedOf]
  by_cases hu : (clausesArray.filter fun pc =>
    jsGet clauseEval (JNum.fin pc) = some 0).isEmpty
  · rw [if_pos hu, if_pos hu]
  · rw [if_neg hu, if_neg hu]

/-- Branch characterization of the scheduler's status on a non-empty table. -/
theorem rNTQ_status_cons (clauseEval : List (JNum × Int)) (head : Row) (rows : List Row)
    (clausesArray : List Int) (assignedTags : List (Int × Int))
    (tagsArray : List Int) (tagsInfo : List TagInfo) :
    (returnNextTagQuestions clauseEval (head :: rows) clausesArray assignedTags tagsArray
        tagsInfo).status =
      if (unresolvedOf clauseEval clausesArray).isEmpty then "done"
      else if (pendingOf clauseEval head rows clausesArray assignedTags).isEmpty then "done"
      else "ask" := by
  simp only [returnNextTagQuestions, unresolvedOf, pendingOf, tagsOfClauseRow]
  by_cases hu : (clausesArray.filter fun pc =>
    jsGet clauseEval (JNum.fin pc) = some 0).isEmpty
  · rw [if_pos hu, if_pos hu]
  · rw [if_neg hu, if_neg hu]
    by_cases hp : ((uniqNumsInt ((clausesArray.filter fun pc =>
          jsGet clauseEval (JNum.fin pc) = some 0).flatMap
            (fun pc =>
              match jsGet (rows.map (fun r =>
                  (cellToNum (rowGet r (some ((findCol head ["pc", "id"]).getD 0))), r)))
                  (JNum.fin pc) with
              | none => []
              | some row => uniqNums (parseList (rowGet row (findCol head ["tags", "array"])))))).filter
          (fun tid => match jsGet assignedTags tid with
            | none => true
            | some v => decide (v = 0))).isEmpty
    · rw [if_pos hp, if_pos hp]
    · rw [if_neg hp, if_neg hp]

/-- Branch characterization of the scheduler's question batch on a non-empty
table. -/
theorem rNTQ_questions_cons (clauseEval : List (JNum × Int)) (head : Row) (rows : List Row)
    (clausesArray : List Int) (assignedTags : List (Int × Int))
    (tagsArray : List Int) (tagsInfo : List TagInfo) :
    (returnNextTagQuestions clauseEval (head :: rows) clausesArray assignedTags tagsArray
        tagsInfo).nextQuestions =
      if (unresolvedOf clauseEval clausesArray).isEmpty then []
      else if (pendingOf clauseEval head rows clausesArray assignedTags).isEmpty then []
      else sortQ (dedupeByTagId (nextInfoOf tagsInfo
        (pendingOf clauseEval head rows clausesArray assignedTags))) := by
  simp only [returnNextTagQuestions, unresolvedOf, pendingOf, nextInfoOf, tagsOfClauseRow]
  by_cases hu : (clausesArray.filter fun pc =>
    jsGet clauseEval (JNum.fin pc) = some 0).isEmpty
  · rw [if_pos hu, if_pos hu]
  · rw [if_neg hu, if_neg hu]
    by_cases hp : ((uniqNumsInt ((clausesArray.filter fun pc =>
          jsGet clauseEval (JNum.fin pc) = some 0).flatMap
            (fun pc =>
              match jsGet (rows.map (fun r =>
                  (cellToNum (rowGet r (some ((findCol head ["pc", "id"]).getD 0))), r)))
                  (JNum.fin pc) with
              | none => []
              | some row => uniqNums (parseList (rowGet row (findCol head ["tags", "array"])))))).filter
          (fun tid => match jsGet assignedTags tid with
            | none => true
            | some v => decide (v = 0))).isEmpty
    · rw [if_pos hp, if_pos hp]
    · rw [if_neg hp, if_neg hp]

/-- Branch-independent characterization of the completion ratio: it is always
the count of `±1` entries of the whole truth mapping over the length of
`tagsArray`. -/
theorem rNTQ_ratio (clauseEval : List (JNum × Int)) (tbl : Table)
    (clausesArray : List Int) (assignedTags : List (Int × Int))
    (tagsArray : List Int) (tagsInfo : List TagInfo) :
    (returnNextTagQuestions clauseEval tbl clausesArray assignedTags tagsArray
        tagsInfo).ratioCompletedTags =
      if tagsArray.length > 0 then
        (((assignedTags.map Prod.snd).countP (fun v => v = 1 ∨ v = -1)) : ℚ) /
          (tagsArray.length : ℚ)
      else 0 := by
  cases tbl with
  | nil =>
    simp only [returnNextTagQuestions]
    by_cases hu : (clausesArray.filter fun pc =>
      jsGet clauseEval (JNum.fin pc) = some 0).isEmpty
    · rw [if_pos hu]
    · rw [if_neg hu]
  | cons head rows =>
    simp only [returnNextTagQuestions]
    by_cases hu : (clausesArray.filter fun pc =>
      jsGet clauseEval (JNum.fin pc) = some 0).isEmpty
    · rw [if_pos hu]
    · rw [if_neg hu]
      by_cases hp : ((uniqNumsInt ((clausesArray.filter fun pc =>
          jsGet clauseEval (JNum.fin pc) = some 0).flatMap
            (fun pc =>
              match jsGet (rows.map (fun r =>
                  (cellToNum (rowGet r (some ((findCol head ["pc", "id"]).getD 0))), r)))
                  (JNum.fin pc) with
              | none => []
              | some row => uniqNums (parseList (rowGet row (findCol head ["tags", "array"])))))).filter
          (fun tid => match jsGet assignedTags tid with
            | none => true
            | some v => decide (v = 0))).isEmpty
      · rw [if_pos hp]
      · rw [if_neg hp]

/-- Claim C4 (amended): writing `unresolved` for the universe clauses with
verdict `0` and `pending` for the tags of unresolved clauses whose truth value
is missing or `0` — status is `done` iff `unresolved` is empty, or the clause
table is non-empty and `pending` is empty (on an empty or absent clause table
with unresolved clauses the source instead returns `ask` with an empty
question list); and when the clause table is non-empty, status `ask` implies
`pending` is non-empty and the returned questions are non-empty, have
pairwise-distinct numeric `Tag_ID`s, and — provided the catalog priorities are
genuine (non-NaN) numbers — are sorted by priority ascending with missing
(`Infinity`) priority last and ties broken by `Tag_ID` ascending. -/
theorem claim_c4_amended (clauseEval : List (JNum × Int)) (tbl : Table)
    (clausesArray : List Int) (assignedTags : List (Int × Int))
    (tagsArray : List Int) (tagsInfo : List TagInfo)
    (hnan : ∀ t ∈ tagsInfo, t.Priority ≠ JNum.nan) :
    ((returnNextTagQuestions clauseEval tbl clausesArray assignedTags tagsArray
        tagsInfo).status = "done" ↔
      (unresolvedOf clauseEval clausesArray = [] ∨
        (tbl ≠ [] ∧ ∀ t, ¬ PendingTag clauseEval tbl clausesArray assignedTags t))) ∧
    ((returnNextTagQuestions clauseEval tbl clausesArray assignedTags tagsArray
        tagsInfo).status = "ask" →
      tbl ≠ [] →
      ((∃ t, PendingTag clauseEval tbl clausesArray assignedTags t) ∧
        (returnNextTagQuestions clauseEval tbl clausesArray assignedTags tagsArray
          tagsInfo).nextQuestions ≠ [] ∧
        ((returnNextTagQuestions clauseEval tbl clausesArray assignedTags tagsArray
          tagsInfo).nextQuestions.map tagIdNum).Nodup ∧
        (returnNextTagQuestions clauseEval tbl clausesArray assignedTags tagsArray
          tagsInfo).nextQuestions.Pairwise qOrdered)) := by
  cases tbl with
  | nil =>
    have hs := rNTQ_status_nil clauseEval clausesArray assignedTags tagsArray tagsInfo
    by_cases hu : (unresolvedOf clauseEval clausesArray).isEmpty
    · rw [if_pos hu] at hs
      constructor
      · rw [hs]
        exact iff_of_true rfl (Or.inl (List.isEmpty_iff.mp hu))
      · rw [hs]
        intro habs
        exact absurd habs (by decide)
    · rw [if_neg hu] at hs
      have huN : unresolvedOf clauseEval clausesArray ≠ [] := fun he =>
        hu (List.isEmpty_iff.mpr he)
      constructor
      · rw [hs]
        apply iff_of_false (by decide)
        rintro (he | ⟨hne, -⟩)
        · exact huN he
        · exact hne rfl
      · intro _ hne
        exact absurd rfl hne
  | cons head rows =>
    have hs := rNTQ_status_cons clauseEval head rows clausesArray assignedTags tagsArray tagsInfo
    have hq := rNTQ_questions_cons clauseEval head rows clausesArray assignedTags tagsArray tagsInfo
    by_cases hu : (unresolvedOf clauseEval clausesArray).isEmpty
    · rw [if_pos hu] at hs
      constructor
      · rw [hs]
        exact iff_of_true rfl (Or.inl (List.isEmpty_iff.mp hu))
      · rw [hs]
        intro habs
        exact absurd habs (by decide)
    · rw [if_neg hu] at hs hq
      have huN : unresolvedOf clauseEval clausesArray ≠ [] := fun he =>
        hu (List.isEmpty_iff.mpr he)
      by_cases hp : (pendingOf clauseEval head rows clausesArray assignedTags).isEmpty
      · rw [if_pos hp] at hs
        constructor
        · rw [hs]
          apply iff_of_true rfl
          refine Or.inr ⟨by simp, fun t hP => ?_⟩
          have hmem := (mem_pendingOf clauseEval head rows clausesArray assignedTags t).mpr hP
          rw [List.isEmpty_iff.mp hp] at hmem
          exact absurd hmem (List.not_mem_nil t)
        · rw [hs]
          intro habs
          exact absurd habs (by decide)
      · rw [if_neg hp] at hs hq
        have hpne : pendingOf clauseEval head rows clausesArray assignedTags ≠ [] := fun he =>
          hp (List.isEmpty_iff.mpr he)
        have hpex : ∃ t, PendingTag clauseEval (head :: rows) clausesArray assignedTags t := by
          obtain ⟨t, ht⟩ := List.exists_mem_of_ne_nil _ hpne
          exact ⟨t, (mem_pendingOf clauseEval head rows clausesArray assignedTags t).mp ht⟩
        constructor
        · rw [hs]
          apply iff_of_false (by decide)
          rintro (he | ⟨-, hall⟩)
          · exact huN he
          · obtain ⟨t, ht⟩ := hpex
            exact hall t ht
        · intro _ _
          rw [hq]
          refine ⟨hpex, ?_, ?_, ?_⟩
          · exact sortQ_ne_nil (dedupeByTagId_ne_nil (nextInfoOf_ne_nil tagsInfo hpne))
          · exact sortQ_dedupe_ids_nodup _
          · exact sortQ_dedupe_pairwise _ (nextInfoOf_nan_free tagsInfo _ hnan)

/-- Counterexample to claim C4 as stated: with an empty (or absent) clause
table and an unresolved clause, the pending set is empty — so the claimed
biconditional demands status `done` — yet the source returns `ask`, and that
`ask` comes with an empty question list, contradicting the claimed
implication as well. -/
theorem claim_c4_counterexample :
    (returnNextTagQuestions [(JNum.fin 1, 0)] [] [1] [] [] []).status = "ask" ∧
    unresolvedOf [(JNum.fin 1, 0)] [1] = [1] ∧
    (∀ t, ¬ PendingTag [(JNum.fin 1, 0)] [] [1] [] t) ∧
    (returnNextTagQuestions [(JNum.fin 1, 0)] [] [1] [] [] []).nextQuestions = [] := by
  refine ⟨by decide, by decide, ?_, by decide⟩
  rintro t ⟨⟨pc, -, -, hmem⟩, -⟩
  simp [tagsOfClauseRow] at hmem

def wSchedTbl : Table :=
  [[Cell.str ("PC_ID"), Cell.str ("Tags_Array")],
   [Cell.num (.fin 1), Cell.str ("10,20")],
   [Cell.num (.fin 2), Cell.str ("30")]]

def wSchedTags : Table :=
  [[Cell.str ("Tag_ID"), Cell.str ("Priority")],
   [Cell.num (.fin 10), Cell.num (.fin 2)],
   [Cell.num (.fin 20), Cell.num (.fin 1)]]

theorem claim_c4_witness :
    ((returnNextTagQuestions [(JNum.fin 1, 0), (JNum.fin 2, 1)] wSchedTbl [1, 2] [(10, 1)]
        [10, 20, 30] (shapeTagsInfo wSchedTags)).status = "done" ↔
      (unresolvedOf [(JNum.fin 1, 0), (JNum.fin 2, 1)] [1, 2] = [] ∨
        (wSchedTbl ≠ [] ∧ ∀ t, ¬ PendingTag [(JNum.fin 1, 0), (JNum.fin 2, 1)] wSchedTbl
          [1, 2] [(10, 1)] t))) ∧
    ((returnNextTagQuestions [(JNum.fin 1, 0), (JNum.fin 2, 1)] wSchedTbl [1, 2] [(10, 1)]
        [10, 20, 30] (shapeTagsInfo wSchedTags)).status = "ask" →
      wSchedTbl ≠ [] →
      ((∃ t, PendingTag [(JNum.fin 1, 0), (JNum.fin 2, 1)] wSchedTbl [1, 2] [(10, 1)] t) ∧
        (returnNextTagQuestions [(JNum.fin 1, 0), (JNum.fin 2, 1)] wSchedTbl [1, 2] [(10, 1)]
          [10, 20, 30] (shapeTagsInfo wSchedTags)).nextQuestions ≠ [] ∧
        ((returnNextTagQuestions [(JNum.fin 1, 0), (JNum.fin 2, 1)] wSchedTbl [1, 2] [(10, 1)]
          [10, 20, 30] (shapeTagsInfo wSchedTags)).nextQuestions.map tagIdNum).Nodup ∧
        (returnNextTagQuestions [(JNum.fin 1, 0), (JNum.fin 2, 1)] wSchedTbl [1, 2] [(10, 1)]
          [10, 20, 30] (shapeTagsInfo wSchedTags)).nextQuestions.Pairwise qOrdered)) :=
  claim_c4_amended [(JNum.fin 1, 0), (JNum.fin 2, 1)] wSchedTbl [1, 2] [(10, 1)]
    [10, 20, 30] (shapeTagsInfo wSchedTags) (by decide)

/-- The claim's completion-ratio formula: the number of tags in the
tag-identifier universe whose truth value is `1` or `-1`, divided by the size
of the universe, and `0` when the universe is empty. -/
def specCompletionRatio (assignedTags : List (Int × Int)) (tagsArray : List Int) : ℚ :=
  if tagsArray.length > 0 then
    ((tagsArray.countP (fun t =>
      specVal assignedTags t = 1 ∨ specVal assignedTags t = -1)) : ℚ) /
      (tagsArray.length : ℚ)
  else 0

/-- Counterexample to claim C8 as stated: with tag universe `[1]` and a truth
mapping holding `1 ↦ 1` and the out-of-universe entry `2 ↦ 1`, the source
counts both entries and returns ratio `2`, while the claimed
universe-restricted formula gives `1`. -/
theorem claim_c8_counterexample :
    ¬ ((returnNextTagQuestions [] [] [] [(1, 1), (2, 1)] [1] []).ratioCompletedTags =
        specCompletionRatio [(1, 1), (2, 1)] [1]) := by
  have h1 : (returnNextTagQuestions [] [] [] [(1, 1), (2, 1)] [1] []).ratioCompletedTags
      = 2 := by
    rw [rNTQ_ratio]
    norm_num
  have h2 : specCompletionRatio [(1, 1), (2, 1)] [1] = 1 := by
    unfold specCompletionRatio
    norm_num [specVal, jsGet]
  intro h
  rw [h1, h2] at h
  norm_num at h

/-- Claim C8 (amended): the returned completion ratio equals the number of
entries of the tag-truth mapping whose value is `1` or `-1` — entries for
identifiers outside the universe included — divided by the length of the
`tagsArray` universe, and `0` when that array is empty. -/
theorem claim_c8_amended (clauseEval : List (JNum × Int)) (tbl : Table)
    (clausesArray : List Int) (assignedTags : List (Int × Int))
    (tagsArray : List Int) (tagsInfo : List TagInfo) :
    (returnNextTagQuestions clauseEval tbl clausesArray assignedTags tagsArray
        tagsInfo).ratioCompletedTags =
      if tagsArray.length > 0 then
        (((assignedTags.map Prod.snd).countP (fun v => v = 1 ∨ v = -1)) : ℚ) /
          (tagsArray.length : ℚ)
      else 0 :=
  rNTQ_ratio clauseEval tbl clausesArray assignedTags tagsArray tagsInfo

/-- Claim C9: a falsy `Priority` cell (the number `0`, an empty cell, or any
other falsy value) in a tag table that has a priority column is shaped to
`Priority = Infinity`, and in the scheduler's sorted output no
`Infinity`-priority question precedes a question of any other priority (it is
ordered last, before the `Tag_ID` tie-break) — even though `0` would
numerically be the highest priority. -/
theorem claim_c9 :
    (∀ head r k, findCol head ["priority"] = some k →
      cellFalsy (rowGet r (some k)) = true →
      (shapeTagRow head r).Priority = JNum.posInf) ∧
    (∀ l : List TagInfo, (∀ x ∈ l, x.Priority ≠ JNum.nan) →
      (sortQ l).Pairwise
        (fun a b => a.Priority = JNum.posInf → b.Priority = JNum.posInf)) := by
  constructor
  · intro head r k hcol hfalsy
    simp only [shapeTagRow, hcol]
    rw [if_pos hfalsy]
  · intro l hl
    refine (sortQ_pairwise l hl).imp ?_
    intro a b hab hpa
    rcases hab with hlt | ⟨heq, -⟩
    · exfalso
      rw [hpa] at hlt
      cases hb : b.Priority <;> rw [hb] at hlt <;> simp [prioLt] at hlt
    · rw [← heq]
      exact hpa

theorem claim_c9_witness :
    (shapeTagRow [Cell.str ("Tag_ID"), Cell.str ("Priority")]
      [Cell.num (.fin 7), Cell.num (.fin 0)]).Priority = JNum.posInf ∧
    (sortQ [fallbackQuestion 5, fallbackQuestion 3]).Pairwise
      (fun a b => a.Priority = JNum.posInf → b.Priority = JNum.posInf) :=
  ⟨claim_c9.1 [Cell.str ("Tag_ID"), Cell.str ("Priority")]
      [Cell.num (.fin 7), Cell.num (.fin 0)] 1 (by decide) (by decide),
    claim_c9.2 [fallbackQuestion 5, fallbackQuestion 3] (by decide)⟩

example : canon (Cell.str ("  My_Value  x ")) = "my value x" := by decide
example : canon (Cell.str ("A__B")) = "a  b" := by decide
example : parseList (Cell.str ("1, 2 ;;3||")) = ["1", "2", "3"] := by decide
example : parseList Cell.null = [] := by decide
example : strToNum " 42 " = .fin 42 := by decide
example : strToNum "" = .fin 0 := by decide
example : strToNum "abc" = .nan := by decide
example : strToNum "-7" = .fin (-7) := by decide
example : uniqNums ["1", "2", "x", "1", "3"] = [1, 2, 3] := by decide
example : findCol [Cell.str ("Tag  ID"), Cell.str ("Priority")] ["priority"] = some 1 := by
  decide
example : findCol [Cell.str ("Tag_ID")] ["tag", "id"] = some 0 := by decide
example : findCol [Cell.str ("Name")] ["variable", "array"] = none := by decide
example : jsGet [((1 : Int), (10 : Int)), (1, 20)] 1 = some 20 := by decide

end TemplateFiller
